import Mathlib

/-!
# restservice: an in-memory key/value store behind three HTTP handlers

A verification development for `src/restservice/main.go`.

The Go program keeps one package-level `store` (a `map[string]string` guarded by
a `sync.RWMutex`) and serves it through the handlers `show`, `update` and
`Index`.  The handlers are embedded here statement by statement as state
transformers on a `World`: the store, the bytes written to the request's
`http.ResponseWriter`, and a ghost log of the effects performed, each stamped
with the lock state in which it took place.

The library calls the handlers make are modelled after the libraries: the map
by its entries, `%v` on a map after package `fmt` (entries by ascending key),
`Params.ByName` after package `httprouter`, and the mutex by its reader count
and writer flag.  A handler runs sequentially: a mutex operation that would wait
for another goroutine ends the run as `Fault.blocked`, and an unlock of a mutex
that is not locked is the fatal error of package `sync`.  The properties are
stated for a request served on a store whose mutex is free, which is the state
of the initial store and the state every handler returns it in.

For requests served concurrently the handler bodies are cut into their
operations (`Prog`), and goroutines take steps on the shared store in the order
a schedule gives; a goroutine whose mutex operation would wait cannot be
scheduled.  Run without interruption, the cut bodies are the handlers
(`showProg_run`, `updateProg_run`).
-/

namespace restservice

/-! ## Go values used by the program -/

/-- The entries of a Go `map[string]string`, as key/value pairs. -/
abbrev Entries := List (String × String)

/-- Reading `m[k]` with the comma-ok form: the value stored under `k`, if any. -/
def Entries.find : Entries → String → Option String
  | [], _ => none
  | (k', v') :: rest, k => if k' = k then some v' else Entries.find rest k

/-- The assignment `m[k] = v`: overwrite the entry of `k` when there is one, add a new entry
otherwise. -/
def Entries.put : Entries → String → String → Entries
  | [], k, v => [(k, v)]
  | (k', v') :: rest, k, v =>
      if k' = k then (k', v) :: rest else (k', v') :: Entries.put rest k v

/-- The keys of the entries, in storage order. -/
def Entries.keyList (es : Entries) : List String := es.map Prod.fst

/-- A Go `map[string]string`: finitely many entries with pairwise distinct keys. -/
structure GoMap where
  entries : Entries
  nodup : (Entries.keyList entries).Nodup

/-- The empty map literal `map[string]string{}`. -/
def GoMap.empty : GoMap := ⟨[], List.nodup_nil⟩

/-- The comma-ok lookup `v, ok := m[k]`. -/
def GoMap.find (m : GoMap) (k : String) : Option String := Entries.find m.entries k

/-- The index expression `m[k]`: the stored value, or the zero value `""` of `string` when
`k` has no entry. -/
def GoMap.index (m : GoMap) (k : String) : String := (m.find k).getD ""

/-- The assignment `m[k] = v`.  The keys stay pairwise distinct: an existing key keeps its
place, a new key is added once. -/
def GoMap.assign (m : GoMap) (k v : String) : GoMap where
  entries := Entries.put m.entries k v
  nodup := by
    have key : ∀ es : Entries, Entries.keyList (Entries.put es k v) =
        if k ∈ Entries.keyList es then Entries.keyList es else Entries.keyList es ++ [k] := by
      intro es
      induction es with
      | nil => simp [Entries.put, Entries.keyList]
      | cons e rest ih =>
        obtain ⟨k', v'⟩ := e
        by_cases h : k' = k
        · subst h
          simp [Entries.put, Entries.keyList]
        · have hne : ¬ k = k' := fun h' => h h'.symm
          simp only [Entries.keyList] at ih
          simp only [Entries.put, if_neg h, Entries.keyList, List.map_cons, List.mem_cons, hne,
            false_or, ih]
          split <;> simp
    rw [key]
    split
    · exact m.nodup
    · rename_i hk
      exact List.Nodup.append m.nodup (List.nodup_singleton k) (by simpa using hk)

/-- The keys of the map. -/
def GoMap.keys (m : GoMap) : List String := Entries.keyList m.entries

/-- The builtin `len(m)`: the number of entries. -/
def GoMap.len (m : GoMap) : Nat := m.entries.length

/-! ## Formatting with package `fmt` -/

/-- Lexicographic comparison of two character sequences by character code (on text encoded
as UTF-8 this is the order of the encoded bytes, which Go compares). -/
def charsLess : List Char → List Char → Bool
  | _, [] => false
  | [], _ :: _ => true
  | a :: as, b :: bs =>
      if a.toNat < b.toNat then true
      else if b.toNat < a.toNat then false
      else charsLess as bs

/-- The comparison `a < b` of Go strings: lexicographic. -/
def strLess (a b : String) : Bool := charsLess a.data b.data

/-- Insertion of one entry into a list of entries that is ordered by key. -/
def insertByKey (e : String × String) : Entries → Entries
  | [] => [e]
  | x :: xs => if strLess e.1 x.1 then e :: x :: xs else x :: insertByKey e xs

/-- The order in which `fmt` prints a map: by ascending key (package `internal/fmtsort`). -/
def sortByKey : Entries → Entries
  | [] => []
  | e :: es => insertByKey e (sortByKey es)

/-- One printed map entry: the key, a colon, the value. -/
def fmtEntry (e : String × String) : String := e.1 ++ ":" ++ e.2

/-- The items that the verb `%v` prints for a map, in printing order. -/
def fmtItems (m : GoMap) : List String := (sortByKey m.entries).map fmtEntry

/-- The printed items in a row, one space before every item but the first. -/
def joinItems : List String → String
  | [] => ""
  | [a] => a
  | a :: b :: rest => a ++ " " ++ joinItems (b :: rest)

/-- The verb `%v` applied to a `map[string]string`: `map[k1:v1 k2:v2]`, the entries
separated by one space and ordered by key. -/
def fmtMap (m : GoMap) : String := "map[" ++ joinItems (fmtItems m) ++ "]"

/-! ## Route parameters (package `httprouter`) -/

/-- One URL parameter: `httprouter.Param`. -/
structure Param where
  Key : String
  Value : String

/-- The parameters of a matched route: `httprouter.Params`, a slice of `Param`. -/
abbrev Params := List Param

/-- The method `Params.ByName`: the value of the first parameter whose key is `name`, and
the empty string when there is none. -/
def Params.ByName : Params → String → String
  | [], _ => ""
  | q :: ps, name => if q.Key = name then q.Value else Params.ByName ps name

/-- The parameters that the route `/entry/:key` binds for a request path `/entry/k`. -/
def entryParams (k : String) : Params := [⟨"key", k⟩]

/-- The parameters that the route `/entry/:key/:value` binds for a path `/entry/k/v`. -/
def entryValueParams (k v : String) : Params := [⟨"key", k⟩, ⟨"value", v⟩]

/-- The routes `/list` and `/` bind no parameter. -/
def noParams : Params := []

/-! ## The store and the handler state -/

/-- The state of a `sync.RWMutex`: how many read locks are held and whether the write lock
is held. -/
structure RWMutex where
  readers : Nat
  writer : Bool
  deriving DecidableEq

/-- The zero value `sync.RWMutex{}`: an unlocked mutex. -/
def RWMutex.unlocked : RWMutex := ⟨0, false⟩

/-- The type `store` of the program: the data map and the mutex that guards it. -/
structure store where
  data : GoMap
  m : RWMutex

/-- The package-level variable `s`: the store, created with an empty map and an unlocked
mutex. -/
def s : store := ⟨GoMap.empty, RWMutex.unlocked⟩

/-- The effects a handler performs on the mutex, the data map and the response writer. -/
inductive Event where
  | RLock
  | RUnlock
  | Lock
  | Unlock
  | load
  | index (k : String)
  | assign (k v : String)
  | respWrite (text : String)
  deriving DecidableEq

/-- One entry of the effect log: the effect, and the state of the mutex when it took place
(for an operation on the mutex: the state it leaves). -/
structure Step where
  ev : Event
  m : RWMutex
  deriving DecidableEq

/-- What a running handler acts on: the store, the body written so far to the
`http.ResponseWriter` of the request, and the log of its effects. -/
structure World where
  s : store
  w : String
  log : List Step

/-- The ways a mutex operation does not return in a sequential run. -/
inductive Fault where
  | blocked
  | fatal (msg : String)
  deriving DecidableEq

/-- A handler body: a state transformer that may stop with a fault. -/
abbrev Handler := World → Except Fault World

/-- A request arriving at store `st`: the handler starts with an empty response body and an
empty log. -/
def World.enter (st : store) : World := ⟨st, "", []⟩

/-- Appends an effect to the log, stamped with the current state of the mutex. -/
def World.record (σ : World) (ev : Event) : World :=
  { σ with log := σ.log ++ [⟨ev, σ.s.m⟩] }

/-- Replaces the mutex state of the store. -/
def World.setMutex (σ : World) (m : RWMutex) : World :=
  { σ with s := { σ.s with m := m } }

/-! ## Operations of `sync.RWMutex` -/

/-- The method `RWMutex.RLock`: takes a read lock; it waits while the write lock is held. -/
def RLock : Handler := fun σ =>
  if σ.s.m.writer then .error Fault.blocked
  else .ok ((σ.setMutex ⟨σ.s.m.readers + 1, σ.s.m.writer⟩).record Event.RLock)

/-- The method `RWMutex.RUnlock`: gives back one read lock; a fatal error when none is
held. -/
def RUnlock : Handler := fun σ =>
  if σ.s.m.readers = 0 then .error (Fault.fatal "sync: RUnlock of unlocked RWMutex")
  else .ok ((σ.setMutex ⟨σ.s.m.readers - 1, σ.s.m.writer⟩).record Event.RUnlock)

/-- The method `RWMutex.Lock`: takes the write lock; it waits while any lock is held. -/
def Lock : Handler := fun σ =>
  if σ.s.m.writer ∨ 0 < σ.s.m.readers then .error Fault.blocked
  else .ok ((σ.setMutex ⟨σ.s.m.readers, true⟩).record Event.Lock)

/-- The method `RWMutex.Unlock`: gives back the write lock; a fatal error when it is not
held. -/
def Unlock : Handler := fun σ =>
  if σ.s.m.writer then .ok ((σ.setMutex ⟨σ.s.m.readers, false⟩).record Event.Unlock)
  else .error (Fault.fatal "sync: Unlock of unlocked RWMutex")

/-! ## Accesses to `s.data` and to the response writer -/

/-- Reading the whole map `s.data`. -/
def loadData (σ : World) : GoMap × World := (σ.s.data, σ.record Event.load)

/-- Evaluating the index expression `s.data[k]`. -/
def indexData (k : String) (σ : World) : String × World :=
  (σ.s.data.index k, σ.record (Event.index k))

/-- Executing the assignment `s.data[k] = v`. -/
def assignData (k v : String) (σ : World) : World :=
  { σ with s := { σ.s with data := σ.s.data.assign k v } }.record (Event.assign k v)

/-- Writing formatted text to the response writer (`fmt.Fprintf`, `fmt.Fprint`); the
handlers ignore the returned byte count and error. -/
def Fprint (text : String) : Handler := fun σ =>
  .ok ({ σ with w := σ.w ++ text }.record (Event.respWrite text))

/-! ## The handlers -/

/-- The handler `show` (main.go, lines 82 to 100), registered for `/entry/:key` and
`/list`. -/
def «show» (p : Params) : Handler := fun σ =>
  let k := p.ByName "key"
  if k = "" then do
    let σ ← RLock σ
    let (d, σ) := loadData σ
    let σ ← Fprint ("Read list: " ++ fmtMap d) σ
    RUnlock σ
  else do
    let σ ← RLock σ
    let (v, σ) := indexData k σ
    let σ ← Fprint ("Read entry: s.data[" ++ k ++ "] = " ++ v) σ
    RUnlock σ

/-- The handler `update` (main.go, lines 102 to 115), registered for
`/entry/:key/:value`. -/
def update (p : Params) : Handler := fun σ => do
  let k := p.ByName "key"
  let v := p.ByName "value"
  let σ ← Lock σ
  let σ := assignData k v σ
  let σ ← Unlock σ
  Fprint ("Updated: s.data[" ++ k ++ "] = " ++ v) σ

/-- The handler `Index` (main.go, lines 117 to 119), registered for `/`. -/
def Index (_p : Params) : Handler := fun σ =>
  Fprint "<html><body><p>Welcome!</p></body></html>" σ

/-- Serving one request: the handler runs on the store with a fresh response writer. -/
def serve (h : Params → Handler) (p : Params) (st : store) : Except Fault World :=
  h p (World.enter st)

/-- A sequence of `PUT /entry/k/v` requests served one after the other, each on the store
the previous one left. -/
def serveUpdates : List (String × String) → store → Except Fault store
  | [], st => .ok st
  | (k, v) :: rest, st => do
      let σ ← serve update (entryValueParams k v) st
      serveUpdates rest σ.s

/-! ## Notions used to state the properties -/

/-- The value a sequence of puts ends with for key `k`: among the puts of `k`, the value of
the last one; none when `k` is never put. -/
def lastPut (ops : List (String × String)) (k : String) : Option String :=
  ((ops.filter (fun e => e.1 = k)).getLast?).map Prod.snd

/-- The step writes to the response writer. -/
def Step.isRespWrite (st : Step) : Bool :=
  match st.ev with
  | Event.respWrite _ => true
  | _ => false

/-- The step reads `s.data`. -/
def Step.isRead (st : Step) : Bool :=
  match st.ev with
  | Event.load => true
  | Event.index _ => true
  | _ => false

/-- The step writes `s.data`. -/
def Step.isWrite (st : Step) : Bool :=
  match st.ev with
  | Event.assign _ _ => true
  | _ => false

/-- Every write to the response writer takes place while no lock of the store is held. -/
def respondsUnlocked (log : List Step) : Prop :=
  ∀ st ∈ log, st.isRespWrite = true → st.m = RWMutex.unlocked

/-- Every read of `s.data` takes place under a read lock and every write of `s.data` under
the write lock. -/
def accessGuarded (log : List Step) : Prop :=
  ∀ st ∈ log, (st.isRead = true → 0 < st.m.readers) ∧ (st.isWrite = true → st.m.writer = true)

/-- How many times the effect `ev` occurs in the log. -/
def occurrences (ev : Event) (log : List Step) : Nat := (log.map Step.ev).count ev

/-- The effects of the log in order, without the lock stamps. -/
def events (log : List Step) : List Event := log.map Step.ev

/-! ## Goroutines: handlers that run concurrently -/

/-- A handler body cut into the operations that goroutines interleave: an operation on the
mutex, the store or the response writer, or a read of `s.data` whose result the rest of the
body uses. -/
inductive Prog where
  | ret : Prog
  | act (op : Handler) (rest : Prog) : Prog
  | idx (k : String) (rest : String → Prog) : Prog
  | ld (rest : GoMap → Prog) : Prog

/-- Running a body to its end without interruption. -/
def Prog.run : Prog → Handler
  | Prog.ret, σ => .ok σ
  | Prog.act op rest, σ => (op σ).bind (Prog.run rest)
  | Prog.idx k rest, σ => Prog.run (rest (indexData k σ).1) (indexData k σ).2
  | Prog.ld rest, σ => Prog.run (rest (loadData σ).1) (loadData σ).2

/-- Running the next operation of a body: none when the body has ended, otherwise the
fault of the operation or the rest of the body with the new state. -/
def Prog.next : Prog → World → Option (Except Fault (Prog × World))
  | Prog.ret, _ => none
  | Prog.act op rest, σ => some ((op σ).map (fun σ' => (rest, σ')))
  | Prog.idx k rest, σ => some (.ok (rest (indexData k σ).1, (indexData k σ).2))
  | Prog.ld rest, σ => some (.ok (rest (loadData σ).1, (loadData σ).2))

/-- The body has ended. -/
def Prog.isRet : Prog → Bool
  | Prog.ret => true
  | _ => false

/-- The body of `show`, operation by operation. -/
def showProg (p : Params) : Prog :=
  if p.ByName "key" = "" then
    Prog.act RLock (Prog.ld fun d =>
      Prog.act (Fprint ("Read list: " ++ fmtMap d)) (Prog.act RUnlock Prog.ret))
  else
    Prog.act RLock (Prog.idx (p.ByName "key") fun v =>
      Prog.act (Fprint ("Read entry: s.data[" ++ p.ByName "key" ++ "] = " ++ v))
        (Prog.act RUnlock Prog.ret))

/-- The body of `update`, operation by operation. -/
def updateProg (p : Params) : Prog :=
  Prog.act Lock
    (Prog.act (fun σ => .ok (assignData (p.ByName "key") (p.ByName "value") σ))
      (Prog.act Unlock
        (Prog.act (Fprint ("Updated: s.data[" ++ p.ByName "key" ++ "] = " ++ p.ByName "value"))
          Prog.ret)))

/-- The three goroutines of the concurrent scenario: the two calls of `update` and a call of
`show`. -/
inductive Who where
  | A
  | B
  | C
  deriving DecidableEq

/-- A goroutine serving one request: what is left of the handler body, the body written to
its own response writer, and the log of its own effects. -/
structure Goroutine where
  prog : Prog
  w : String
  log : List Step

/-- A goroutine that has not started on its body. -/
def Goroutine.start (prog : Prog) : Goroutine := ⟨prog, "", []⟩

/-- The goroutine has returned from its handler. -/
def Goroutine.done (g : Goroutine) : Prop := g.prog.isRet = true

/-- The goroutine holds the write lock: it has locked and not yet unlocked. -/
def Goroutine.inWrite (g : Goroutine) : Prop :=
  occurrences Event.Unlock g.log < occurrences Event.Lock g.log

/-- The goroutine holds a read lock: it has read-locked and not yet read-unlocked. -/
def Goroutine.inRead (g : Goroutine) : Prop :=
  occurrences Event.RUnlock g.log < occurrences Event.RLock g.log

/-- The running program: the one store that the goroutines share, the goroutines, and the
goroutine that acquired the write lock last, if any did. -/
structure Sys where
  st : store
  g : Who → Goroutine
  lastLock : Option Who

/-- Why a goroutine does not take a step: it waits for the mutex, it has returned, or the
runtime stops the program with a fatal error. -/
inductive Halt where
  | waits
  | exited
  | crashed (msg : String)

/-- One step of goroutine `i`: it runs its next operation on the shared store.  A goroutine
whose operation would wait is not scheduled.  The step acquires the write lock when the
write lock is held after it and was not before. -/
def Sys.step (i : Who) (sys : Sys) : Except Halt Sys :=
  match (sys.g i).prog.next ⟨sys.st, (sys.g i).w, (sys.g i).log⟩ with
  | none => .error Halt.exited
  | some (.error Fault.blocked) => .error Halt.waits
  | some (.error (Fault.fatal msg)) => .error (Halt.crashed msg)
  | some (.ok (rest, σ)) =>
      .ok ⟨σ.s, Function.update sys.g i ⟨rest, σ.w, σ.log⟩,
        if σ.s.m.writer = true ∧ sys.st.m.writer = false then some i else sys.lastLock⟩

/-- A schedule: the goroutines take their steps in the order listed. -/
def Sys.run : List Who → Sys → Except Halt Sys
  | [], sys => .ok sys
  | i :: rest, sys => (Sys.step i sys).bind (Sys.run rest)

/-- The concurrent scenario: on the store `st`, goroutine `A` serves `update(k, v1)`,
goroutine `B` serves `update(k, v2)` and goroutine `C` serves `show` on the parameters `p`;
none has started. -/
def Sys.init (st : store) (k v1 v2 : String) (p : Params) : Sys :=
  ⟨st, fun i =>
      match i with
      | Who.A => Goroutine.start (updateProg (entryValueParams k v1))
      | Who.B => Goroutine.start (updateProg (entryValueParams k v2))
      | Who.C => Goroutine.start (showProg p),
    none⟩

/-! ## Positions in the bodies of the concurrent scenario -/

/-- The text `update(k, v)` writes. -/
def updateText (k v : String) : String := "Updated: s.data[" ++ k ++ "] = " ++ v

/-- What is left of the body of `update(k, v)` after `n` operations. -/
def updateFrom (k v : String) : Nat → Prog
  | 0 => Prog.act Lock (Prog.act (fun σ => .ok (assignData k v σ))
      (Prog.act Unlock (Prog.act (Fprint (updateText k v)) Prog.ret)))
  | 1 => Prog.act (fun σ => .ok (assignData k v σ))
      (Prog.act Unlock (Prog.act (Fprint (updateText k v)) Prog.ret))
  | 2 => Prog.act Unlock (Prog.act (Fprint (updateText k v)) Prog.ret)
  | 3 => Prog.act (Fprint (updateText k v)) Prog.ret
  | _ => Prog.ret

/-- The effects of `update(k, v)` in order. -/
def updateEvents (k v : String) : List Event :=
  [Event.Lock, Event.assign k v, Event.Unlock, Event.respWrite (updateText k v)]

/-- The text `show` writes on parameters `p` when the map it reads is `m`. -/
def showText (p : Params) (m : GoMap) : String :=
  if p.ByName "key" = "" then "Read list: " ++ fmtMap m
  else "Read entry: s.data[" ++ p.ByName "key" ++ "] = " ++ m.index (p.ByName "key")

/-- What is left of the body of `show` after `n` operations, `m` being the map it read. -/
def showFrom (p : Params) (m : GoMap) : Nat → Prog
  | 0 => showProg p
  | 1 =>
      if p.ByName "key" = "" then
        Prog.ld fun d =>
          Prog.act (Fprint ("Read list: " ++ fmtMap d)) (Prog.act RUnlock Prog.ret)
      else
        Prog.idx (p.ByName "key") fun v =>
          Prog.act (Fprint ("Read entry: s.data[" ++ p.ByName "key" ++ "] = " ++ v))
            (Prog.act RUnlock Prog.ret)
  | 2 => Prog.act (Fprint (showText p m)) (Prog.act RUnlock Prog.ret)
  | 3 => Prog.act RUnlock Prog.ret
  | _ => Prog.ret

/-- The effects of `show` in order, `m` being the map it read. -/
def showEvents (p : Params) (m : GoMap) : List Event :=
  [Event.RLock, if p.ByName "key" = "" then Event.load else Event.index (p.ByName "key"),
   Event.respWrite (showText p m), Event.RUnlock]

/-- The maps the store can hold while `update(k, v1)` and `update(k, v2)` run on the map
`d`: `d` itself, and `d` after one or both assignments, in either order. -/
def snapshotOf (d : GoMap) (k v1 v2 : String) (m : GoMap) : Prop :=
  m = d ∨ m = d.assign k v1 ∨ m = d.assign k v2 ∨
    m = (d.assign k v1).assign k v2 ∨ m = (d.assign k v2).assign k v1

/-- The states of the concurrent scenario: goroutine `A` has run `i` operations of
`update(k, v1)`, goroutine `B` has run `j` operations of `update(k, v2)`, goroutine `C` has
run `l` operations of `show`, having read the map `m` if it has read. -/
structure Inv (d : GoMap) (k v1 v2 : String) (p : Params) (i j l : Nat) (m : GoMap)
    (sys : Sys) : Prop where
  hi : i ≤ 4
  hj : j ≤ 4
  hl : l ≤ 4
  progA : (sys.g Who.A).prog = updateFrom k v1 i
  progB : (sys.g Who.B).prog = updateFrom k v2 j
  progC : (sys.g Who.C).prog = showFrom p m l
  evA : events (sys.g Who.A).log = (updateEvents k v1).take i
  evB : events (sys.g Who.B).log = (updateEvents k v2).take j
  evC : events (sys.g Who.C).log = (showEvents p m).take l
  wA : (sys.g Who.A).w = if i = 4 then updateText k v1 else ""
  wB : (sys.g Who.B).w = if j = 4 then updateText k v2 else ""
  wC : (sys.g Who.C).w = if 3 ≤ l then showText p m else ""
  readers : sys.st.m.readers = if 1 ≤ l ∧ l ≤ 3 then 1 else 0
  writer : sys.st.m.writer = true ↔ ((i = 1 ∨ i = 2) ∨ (j = 1 ∨ j = 2))
  excl : ¬ ((i = 1 ∨ i = 2) ∧ (j = 1 ∨ j = 2))
  exclR : ((i = 1 ∨ i = 2) ∨ (j = 1 ∨ j = 2)) → ¬ (1 ≤ l ∧ l ≤ 3)
  lastNone : sys.lastLock = none ↔ (i = 0 ∧ j = 0)
  lastA : sys.lastLock = some Who.A → 1 ≤ i ∧ ¬ (j = 1 ∨ j = 2)
  lastB : sys.lastLock = some Who.B → 1 ≤ j ∧ ¬ (i = 1 ∨ i = 2)
  lastC : sys.lastLock ≠ some Who.C
  data : sys.st.data =
    if 2 ≤ i then
      if 2 ≤ j then
        if sys.lastLock = some Who.A then (d.assign k v2).assign k v1
        else (d.assign k v1).assign k v2
      else d.assign k v1
    else if 2 ≤ j then d.assign k v2 else d
  snap : 2 ≤ l → snapshotOf d k v1 v2 m

/-! ## What each handler does to a request -/

/-- The list branch of `show`: taken when the key parameter is empty or missing. -/
theorem serve_show_list (p : Params) (d : GoMap) (h : p.ByName "key" = "") :
    serve «show» p ⟨d, RWMutex.unlocked⟩ =
      .ok ⟨⟨d, RWMutex.unlocked⟩, "Read list: " ++ fmtMap d,
        [⟨Event.RLock, ⟨1, false⟩⟩, ⟨Event.load, ⟨1, false⟩⟩,
         ⟨Event.respWrite ("Read list: " ++ fmtMap d), ⟨1, false⟩⟩,
         ⟨Event.RUnlock, ⟨0, false⟩⟩]⟩ := by
  simp [serve, «show», h, World.enter, RLock, RUnlock, loadData, Fprint, World.record,
    World.setMutex, RWMutex.unlocked, bind, Except.bind]

/-- The single-entry branch of `show`: taken when the key parameter is not empty. -/
theorem serve_show_entry (p : Params) (d : GoMap) (h : p.ByName "key" ≠ "") :
    serve «show» p ⟨d, RWMutex.unlocked⟩ =
      .ok ⟨⟨d, RWMutex.unlocked⟩,
        "Read entry: s.data[" ++ p.ByName "key" ++ "] = " ++ d.index (p.ByName "key"),
        [⟨Event.RLock, ⟨1, false⟩⟩, ⟨Event.index (p.ByName "key"), ⟨1, false⟩⟩,
         ⟨Event.respWrite
            ("Read entry: s.data[" ++ p.ByName "key" ++ "] = " ++ d.index (p.ByName "key")),
            ⟨1, false⟩⟩,
         ⟨Event.RUnlock, ⟨0, false⟩⟩]⟩ := by
  simp [serve, «show», h, World.enter, RLock, RUnlock, indexData, Fprint, World.record,
    World.setMutex, RWMutex.unlocked, bind, Except.bind]

/-- The handler `update` on any parameters. -/
theorem serve_update (p : Params) (d : GoMap) :
    serve update p ⟨d, RWMutex.unlocked⟩ =
      .ok ⟨⟨d.assign (p.ByName "key") (p.ByName "value"), RWMutex.unlocked⟩,
        "Updated: s.data[" ++ p.ByName "key" ++ "] = " ++ p.ByName "value",
        [⟨Event.Lock, ⟨0, true⟩⟩, ⟨Event.assign (p.ByName "key") (p.ByName "value"), ⟨0, true⟩⟩,
         ⟨Event.Unlock, ⟨0, false⟩⟩,
         ⟨Event.respWrite ("Updated: s.data[" ++ p.ByName "key" ++ "] = " ++ p.ByName "value"),
            ⟨0, false⟩⟩]⟩ := by
  simp [serve, update, World.enter, Lock, Unlock, assignData, Fprint, World.record,
    World.setMutex, RWMutex.unlocked, bind, Except.bind]

/-- The handler `Index` on any parameters and any store. -/
theorem serve_Index (p : Params) (st : store) :
    serve Index p st =
      .ok ⟨st, "<html><body><p>Welcome!</p></body></html>",
        [⟨Event.respWrite "<html><body><p>Welcome!</p></body></html>", st.m⟩]⟩ := by
  simp [serve, Index, World.enter, Fprint, World.record]

/-! ## The map operations -/

theorem Entries.find_put_same (es : Entries) (k v : String) :
    Entries.find (Entries.put es k v) k = some v := by
  induction es with
  | nil => simp [Entries.put, Entries.find]
  | cons e rest ih =>
    obtain ⟨k', v'⟩ := e
    by_cases h : k' = k
    · simp [Entries.put, Entries.find, h]
    · simp [Entries.put, Entries.find, h, ih]

theorem Entries.find_put_other (es : Entries) (k v k0 : String) (hne : k0 ≠ k) :
    Entries.find (Entries.put es k v) k0 = Entries.find es k0 := by
  induction es with
  | nil =>
    have : ¬ k = k0 := fun h => hne h.symm
    simp [Entries.put, Entries.find, this]
  | cons e rest ih =>
    obtain ⟨k', v'⟩ := e
    by_cases h : k' = k
    · subst h
      have : ¬ k' = k0 := fun h => hne h.symm
      simp [Entries.put, Entries.find, this]
    · by_cases h0 : k' = k0
      · subst h0
        simp [Entries.put, Entries.find, h]
      · simp [Entries.put, Entries.find, h, h0, ih]

theorem Entries.keyList_put (es : Entries) (k v : String) :
    Entries.keyList (Entries.put es k v) =
      if k ∈ Entries.keyList es then Entries.keyList es else Entries.keyList es ++ [k] := by
  induction es with
  | nil => simp [Entries.put, Entries.keyList]
  | cons e rest ih =>
    obtain ⟨k', v'⟩ := e
    by_cases h : k' = k
    · subst h
      simp [Entries.put, Entries.keyList]
    · have hne : ¬ k = k' := fun h' => h h'.symm
      simp only [Entries.keyList] at ih
      simp only [Entries.put, if_neg h, Entries.keyList, List.map_cons, List.mem_cons, hne,
        false_or, ih]
      split <;> simp

theorem Entries.length_put (es : Entries) (k v : String) :
    (Entries.put es k v).length =
      if k ∈ Entries.keyList es then es.length else es.length + 1 := by
  have h := congrArg List.length (Entries.keyList_put es k v)
  have hl : ∀ l : Entries, (Entries.keyList l).length = l.length := fun l => List.length_map l _
  rw [hl] at h
  by_cases hk : k ∈ Entries.keyList es
  · rw [if_pos hk, hl] at h
    rw [if_pos hk, h]
  · rw [if_neg hk, List.length_append, hl] at h
    rw [if_neg hk, h]
    rfl

theorem Entries.find_isSome (es : Entries) (k : String) :
    (Entries.find es k).isSome = true ↔ k ∈ Entries.keyList es := by
  induction es with
  | nil => simp [Entries.find, Entries.keyList]
  | cons e rest ih =>
    obtain ⟨k', v'⟩ := e
    by_cases h : k' = k
    · simp [Entries.find, Entries.keyList, h]
    · have hne : ¬ k = k' := fun h' => h h'.symm
      simp only [Entries.keyList] at ih
      simp [Entries.find, Entries.keyList, h, hne, ih]

theorem Entries.mem_of_find (es : Entries) (k v : String) (h : Entries.find es k = some v) :
    (k, v) ∈ es := by
  induction es with
  | nil => simp [Entries.find] at h
  | cons e rest ih =>
    obtain ⟨k', v'⟩ := e
    by_cases hk : k' = k
    · simp [Entries.find, hk] at h
      simp [hk, h]
    · simp [Entries.find, hk] at h
      exact List.mem_cons_of_mem _ (ih h)

theorem GoMap.find_assign_same (d : GoMap) (k v : String) : (d.assign k v).find k = some v :=
  Entries.find_put_same d.entries k v

theorem GoMap.find_assign_other (d : GoMap) (k v k0 : String) (hne : k0 ≠ k) :
    (d.assign k v).find k0 = d.find k0 :=
  Entries.find_put_other d.entries k v k0 hne

theorem GoMap.keys_assign (d : GoMap) (k v : String) :
    (d.assign k v).keys = if k ∈ d.keys then d.keys else d.keys ++ [k] :=
  Entries.keyList_put d.entries k v

theorem GoMap.len_assign (d : GoMap) (k v : String) :
    (d.assign k v).len = if k ∈ d.keys then d.len else d.len + 1 :=
  Entries.length_put d.entries k v

theorem GoMap.mem_keys_iff (d : GoMap) (k : String) :
    k ∈ d.keys ↔ (d.find k).isSome = true :=
  (Entries.find_isSome d.entries k).symm

theorem GoMap.mem_keys_assign (d : GoMap) (k v k0 : String) (h : k0 ∈ d.keys) :
    k0 ∈ (d.assign k v).keys := by
  rw [GoMap.keys_assign]
  split
  · exact h
  · exact List.mem_append_left _ h

/-! ## Printing a map -/

theorem insertByKey_perm (e : String × String) (es : Entries) :
    (insertByKey e es).Perm (e :: es) := by
  induction es with
  | nil => exact List.Perm.refl _
  | cons x xs ih =>
    unfold insertByKey
    split
    · exact List.Perm.refl _
    · exact (List.Perm.cons x ih).trans (List.Perm.swap e x xs)

theorem sortByKey_perm (es : Entries) : (sortByKey es).Perm es := by
  induction es with
  | nil => exact List.Perm.refl _
  | cons e es ih =>
    exact (insertByKey_perm e (sortByKey es)).trans (List.Perm.cons e ih)

theorem fmtItems_perm (d : GoMap) : (fmtItems d).Perm (d.entries.map fmtEntry) :=
  (sortByKey_perm d.entries).map fmtEntry

theorem fmtItems_mem (d : GoMap) (k v : String) (h : d.find k = some v) :
    k ++ ":" ++ v ∈ fmtItems d := by
  have hmem : (k, v) ∈ d.entries := Entries.mem_of_find d.entries k v h
  have : fmtEntry (k, v) ∈ d.entries.map fmtEntry := List.mem_map_of_mem fmtEntry hmem
  exact (fmtItems_perm d).symm.subset this

theorem joinItems_mem (items : List String) (x : String) (h : x ∈ items) :
    ∃ before after : String, joinItems items = before ++ x ++ after := by
  induction items with
  | nil => simp at h
  | cons a rest ih =>
    cases rest with
    | nil =>
      have hx : x = a := by simpa using h
      exact ⟨"", "", by simp [joinItems, hx]⟩
    | cons b rest =>
      rcases List.mem_cons.mp h with hx | hx
      · exact ⟨"", " " ++ joinItems (b :: rest), by simp [joinItems, hx, String.append_assoc]⟩
      · obtain ⟨before, after, hj⟩ := ih hx
        exact ⟨a ++ " " ++ before, after, by simp [joinItems, hj, String.append_assoc]⟩

theorem fmtMap_shows (d : GoMap) (k v : String) (h : d.find k = some v) :
    ∃ before after : String, fmtMap d = "map[" ++ before ++ (k ++ ":" ++ v) ++ after ++ "]" := by
  obtain ⟨before, after, hj⟩ := joinItems_mem (fmtItems d) _ (fmtItems_mem d k v h)
  exact ⟨before, after, by simp [fmtMap, hj, String.append_assoc]⟩

theorem list_ne_entry (a b : String) :
    "Read list: " ++ a ≠ "Read entry: s.data[" ++ b := by
  intro h
  have h' := congrArg String.data h
  simp [String.data_append] at h'

/-! ## Route parameters -/

theorem ByName_key_entryParams (k : String) : (entryParams k).ByName "key" = k := by
  simp [entryParams, Params.ByName]

theorem ByName_key_entryValueParams (k v : String) :
    (entryValueParams k v).ByName "key" = k := by
  simp [entryValueParams, Params.ByName]

theorem ByName_value_entryValueParams (k v : String) :
    (entryValueParams k v).ByName "value" = v := by
  simp [entryValueParams, Params.ByName]

theorem ByName_key_noParams : noParams.ByName "key" = "" := rfl

/-! ## Sequences of puts -/

theorem serve_update_kv (d : GoMap) (k v : String) :
    serve update (entryValueParams k v) ⟨d, RWMutex.unlocked⟩ =
      .ok ⟨⟨d.assign k v, RWMutex.unlocked⟩, "Updated: s.data[" ++ k ++ "] = " ++ v,
        [⟨Event.Lock, ⟨0, true⟩⟩, ⟨Event.assign k v, ⟨0, true⟩⟩, ⟨Event.Unlock, ⟨0, false⟩⟩,
         ⟨Event.respWrite ("Updated: s.data[" ++ k ++ "] = " ++ v), ⟨0, false⟩⟩]⟩ := by
  rw [serve_update, ByName_key_entryValueParams, ByName_value_entryValueParams]

theorem serveUpdates_eq (ops : List (String × String)) (d : GoMap) :
    serveUpdates ops ⟨d, RWMutex.unlocked⟩ =
      .ok ⟨ops.foldl (fun m e => m.assign e.1 e.2) d, RWMutex.unlocked⟩ := by
  induction ops generalizing d with
  | nil => rfl
  | cons e rest ih =>
    obtain ⟨k, v⟩ := e
    simp only [serveUpdates, serve_update_kv, bind, Except.bind, List.foldl_cons]
    exact ih (d.assign k v)

theorem lastPut_nil (k : String) : lastPut [] k = none := rfl

theorem lastPut_cons (k0 v0 : String) (rest : List (String × String)) (k : String) :
    lastPut ((k0, v0) :: rest) k =
      match lastPut rest k with
      | some v => some v
      | none => if k0 = k then some v0 else none := by
  unfold lastPut
  by_cases h : k0 = k
  · have hf : List.filter (fun e => decide (e.1 = k)) ((k0, v0) :: rest) =
        (k0, v0) :: List.filter (fun e => decide (e.1 = k)) rest := by
      simp [List.filter_cons, h]
    rw [hf, List.getLast?_cons, if_pos h]
    generalize (List.filter (fun e => decide (e.1 = k)) rest).getLast? = o
    cases o <;> rfl
  · have hf : List.filter (fun e => decide (e.1 = k)) ((k0, v0) :: rest) =
        List.filter (fun e => decide (e.1 = k)) rest := by
      simp [List.filter_cons, h]
    rw [hf, if_neg h]
    generalize (List.filter (fun e => decide (e.1 = k)) rest).getLast? = o
    cases o <;> rfl

theorem find_foldl_assign (ops : List (String × String)) (d : GoMap) (k : String) :
    (ops.foldl (fun m e => m.assign e.1 e.2) d).find k =
      match lastPut ops k with
      | some v => some v
      | none => d.find k := by
  induction ops generalizing d with
  | nil => simp [lastPut_nil]
  | cons e rest ih =>
    obtain ⟨k0, v0⟩ := e
    rw [List.foldl_cons, ih, lastPut_cons]
    cases hl : lastPut rest k with
    | some v => rfl
    | none =>
      by_cases h : k0 = k
      · subst h
        simp [GoMap.find_assign_same]
      · have hne : k ≠ k0 := fun h' => h h'.symm
        simp [h, GoMap.find_assign_other _ _ _ _ hne]

theorem lastPut_isSome (ops : List (String × String)) (k : String) :
    (lastPut ops k).isSome = true ↔ k ∈ ops.map Prod.fst := by
  induction ops with
  | nil => simp [lastPut_nil]
  | cons e rest ih =>
    obtain ⟨k0, v0⟩ := e
    rw [lastPut_cons]
    cases hl : lastPut rest k with
    | some v =>
      rw [hl] at ih
      have hmem : k ∈ rest.map Prod.fst := ih.mp rfl
      simp only [List.map_cons, List.mem_cons]
      exact ⟨fun _ => Or.inr hmem, fun _ => rfl⟩
    | none =>
      rw [hl] at ih
      have hnot : k ∉ rest.map Prod.fst := fun hm => by simpa using ih.mpr hm
      by_cases h : k0 = k
      · simp [h]
      · have hne : ¬ k = k0 := fun h' => h h'.symm
        simp only [List.map_cons, List.mem_cons, h, if_false, hne, false_or]
        exact ⟨fun hf => by simp at hf, fun hm => absurd hm hnot⟩

/-! ## The concurrent scenario -/

theorem step_act_ok (i : Who) (sys : Sys) (op : Handler) (rest : Prog) (σ : World)
    (hp : (sys.g i).prog = Prog.act op rest)
    (ho : op ⟨sys.st, (sys.g i).w, (sys.g i).log⟩ = .ok σ) :
    Sys.step i sys = .ok ⟨σ.s, Function.update sys.g i ⟨rest, σ.w, σ.log⟩,
      if σ.s.m.writer = true ∧ sys.st.m.writer = false then some i else sys.lastLock⟩ := by
  simp [Sys.step, hp, Prog.next, ho, Except.map]

theorem step_act_blocked (i : Who) (sys : Sys) (op : Handler) (rest : Prog)
    (hp : (sys.g i).prog = Prog.act op rest)
    (ho : op ⟨sys.st, (sys.g i).w, (sys.g i).log⟩ = .error Fault.blocked) :
    Sys.step i sys = .error Halt.waits := by
  simp [Sys.step, hp, Prog.next, ho, Except.map]

theorem step_ret (i : Who) (sys : Sys) (hp : (sys.g i).prog = Prog.ret) :
    Sys.step i sys = .error Halt.exited := by
  simp [Sys.step, hp, Prog.next]

theorem step_idx (i : Who) (sys : Sys) (k : String) (rest : String → Prog)
    (hp : (sys.g i).prog = Prog.idx k rest) :
    Sys.step i sys = .ok ⟨sys.st,
      Function.update sys.g i ⟨rest (sys.st.data.index k), (sys.g i).w,
        (sys.g i).log ++ [⟨Event.index k, sys.st.m⟩]⟩, sys.lastLock⟩ := by
  simp [Sys.step, hp, Prog.next, indexData, World.record]

theorem step_ld (i : Who) (sys : Sys) (rest : GoMap → Prog)
    (hp : (sys.g i).prog = Prog.ld rest) :
    Sys.step i sys = .ok ⟨sys.st,
      Function.update sys.g i ⟨rest sys.st.data, (sys.g i).w,
        (sys.g i).log ++ [⟨Event.load, sys.st.m⟩]⟩, sys.lastLock⟩ := by
  simp [Sys.step, hp, Prog.next, loadData, World.record]

theorem events_append (log : List Step) (x : Step) : events (log ++ [x]) = events log ++ [x.ev] := by
  simp [events]

theorem step_Lock_ok (i : Who) (sys : Sys) (rest : Prog)
    (hp : (sys.g i).prog = Prog.act Lock rest) (hm : sys.st.m = ⟨0, false⟩) :
    Sys.step i sys = .ok ⟨⟨sys.st.data, ⟨0, true⟩⟩,
      Function.update sys.g i ⟨rest, (sys.g i).w, (sys.g i).log ++ [⟨Event.Lock, ⟨0, true⟩⟩]⟩,
      some i⟩ := by
  rw [step_act_ok i sys Lock rest
    ⟨⟨sys.st.data, ⟨0, true⟩⟩, (sys.g i).w, (sys.g i).log ++ [⟨Event.Lock, ⟨0, true⟩⟩]⟩ hp
    (by simp [Lock, hm, World.record, World.setMutex])]
  simp [hm]

theorem step_Lock_blocked (i : Who) (sys : Sys) (rest : Prog)
    (hp : (sys.g i).prog = Prog.act Lock rest)
    (hm : sys.st.m.writer = true ∨ 0 < sys.st.m.readers) :
    Sys.step i sys = .error Halt.waits :=
  step_act_blocked i sys Lock rest hp (by simp [Lock, hm])

theorem step_assign (i : Who) (sys : Sys) (k v : String) (rest : Prog)
    (hp : (sys.g i).prog = Prog.act (fun σ => .ok (assignData k v σ)) rest)
    (hm : sys.st.m.writer = true) :
    Sys.step i sys = .ok ⟨⟨sys.st.data.assign k v, sys.st.m⟩,
      Function.update sys.g i
        ⟨rest, (sys.g i).w, (sys.g i).log ++ [⟨Event.assign k v, sys.st.m⟩]⟩,
      sys.lastLock⟩ := by
  rw [step_act_ok i sys _ rest
    ⟨⟨sys.st.data.assign k v, sys.st.m⟩, (sys.g i).w,
      (sys.g i).log ++ [⟨Event.assign k v, sys.st.m⟩]⟩ hp
    (by simp [assignData, World.record])]
  simp [hm]

theorem step_Unlock_ok (i : Who) (sys : Sys) (rest : Prog)
    (hp : (sys.g i).prog = Prog.act Unlock rest) (hm : sys.st.m.writer = true) :
    Sys.step i sys = .ok ⟨⟨sys.st.data, ⟨sys.st.m.readers, false⟩⟩,
      Function.update sys.g i
        ⟨rest, (sys.g i).w, (sys.g i).log ++ [⟨Event.Unlock, ⟨sys.st.m.readers, false⟩⟩]⟩,
      sys.lastLock⟩ := by
  rw [step_act_ok i sys Unlock rest
    ⟨⟨sys.st.data, ⟨sys.st.m.readers, false⟩⟩, (sys.g i).w,
      (sys.g i).log ++ [⟨Event.Unlock, ⟨sys.st.m.readers, false⟩⟩]⟩ hp
    (by simp [Unlock, hm, World.record, World.setMutex])]
  simp

theorem step_Fprint (i : Who) (sys : Sys) (text : String) (rest : Prog)
    (hp : (sys.g i).prog = Prog.act (Fprint text) rest) :
    Sys.step i sys = .ok ⟨sys.st,
      Function.update sys.g i
        ⟨rest, (sys.g i).w ++ text, (sys.g i).log ++ [⟨Event.respWrite text, sys.st.m⟩]⟩,
      sys.lastLock⟩ := by
  rw [step_act_ok i sys (Fprint text) rest
    ⟨sys.st, (sys.g i).w ++ text, (sys.g i).log ++ [⟨Event.respWrite text, sys.st.m⟩]⟩ hp
    (by simp [Fprint, World.record])]
  simp

theorem step_RLock_ok (i : Who) (sys : Sys) (rest : Prog)
    (hp : (sys.g i).prog = Prog.act RLock rest) (hm : sys.st.m.writer = false) :
    Sys.step i sys = .ok ⟨⟨sys.st.data, ⟨sys.st.m.readers + 1, false⟩⟩,
      Function.update sys.g i
        ⟨rest, (sys.g i).w,
          (sys.g i).log ++ [⟨Event.RLock, ⟨sys.st.m.readers + 1, false⟩⟩]⟩,
      sys.lastLock⟩ := by
  rw [step_act_ok i sys RLock rest
    ⟨⟨sys.st.data, ⟨sys.st.m.readers + 1, false⟩⟩, (sys.g i).w,
      (sys.g i).log ++ [⟨Event.RLock, ⟨sys.st.m.readers + 1, false⟩⟩]⟩ hp
    (by simp [RLock, hm, World.record, World.setMutex])]
  simp

theorem step_RLock_blocked (i : Who) (sys : Sys) (rest : Prog)
    (hp : (sys.g i).prog = Prog.act RLock rest) (hm : sys.st.m.writer = true) :
    Sys.step i sys = .error Halt.waits :=
  step_act_blocked i sys RLock rest hp (by simp [RLock, hm])

theorem step_RUnlock_ok (i : Who) (sys : Sys) (rest : Prog)
    (hp : (sys.g i).prog = Prog.act RUnlock rest) (hm : sys.st.m.readers ≠ 0) :
    Sys.step i sys = .ok ⟨⟨sys.st.data, ⟨sys.st.m.readers - 1, sys.st.m.writer⟩⟩,
      Function.update sys.g i
        ⟨rest, (sys.g i).w,
          (sys.g i).log ++ [⟨Event.RUnlock, ⟨sys.st.m.readers - 1, sys.st.m.writer⟩⟩]⟩,
      sys.lastLock⟩ := by
  rw [step_act_ok i sys RUnlock rest
    ⟨⟨sys.st.data, ⟨sys.st.m.readers - 1, sys.st.m.writer⟩⟩, (sys.g i).w,
      (sys.g i).log ++ [⟨Event.RUnlock, ⟨sys.st.m.readers - 1, sys.st.m.writer⟩⟩]⟩ hp
    (by simp [RUnlock, hm, World.record, World.setMutex])]
  simp

theorem mutex_eq (mu : RWMutex) (r : Nat) (w : Bool) (hr : mu.readers = r) (hw : mu.writer = w) :
    mu = ⟨r, w⟩ := by
  cases mu
  simp only at hr hw
  rw [hr, hw]

theorem step_A (d : GoMap) (k v1 v2 : String) (p : Params) (i j l : Nat) (m : GoMap)
    (sys : Sys) (h : Inv d k v1 v2 p i j l m sys) :
    match Sys.step Who.A sys with
    | .ok sys' => Inv d k v1 v2 p (i + 1) j l m sys'
    | .error e =>
        (e = Halt.waits ∧ i = 0 ∧ ((j = 1 ∨ j = 2) ∨ (1 ≤ l ∧ l ≤ 3))) ∨
        (e = Halt.exited ∧ i = 4) := by
  obtain ⟨hi, hj, hl, pA, pB, pC, eA, eB, eC, wA, wB, wC, hr, hw, hx, hxr, lN, lA, lB, lC,
    hd, hs⟩ := h
  have hcases : i = 0 ∨ i = 1 ∨ i = 2 ∨ i = 3 ∨ i = 4 := by omega
  rcases hcases with rfl | rfl | rfl | rfl | rfl
  · by_cases hheld : (j = 1 ∨ j = 2) ∨ (1 ≤ l ∧ l ≤ 3)
    · have hm : sys.st.m.writer = true ∨ 0 < sys.st.m.readers := by
        rcases hheld with h1 | h1
        · exact Or.inl (hw.mpr (Or.inr h1))
        · right; rw [hr, if_pos h1]; exact Nat.one_pos
      rw [step_Lock_blocked Who.A _ _ pA hm]
      exact Or.inl ⟨rfl, rfl, hheld⟩
    · have hwr : sys.st.m.writer = false := by
        cases hb : sys.st.m.writer
        · rfl
        · exact absurd (hw.mp hb) (by omega)
      have hr0 : sys.st.m.readers = 0 := by rw [hr, if_neg (by omega)]
      have hl' : ¬ (1 ≤ l ∧ l ≤ 3) := by omega
      rw [step_Lock_ok Who.A _ _ pA (mutex_eq _ _ _ hr0 hwr)]
      simp only
      constructor
      all_goals try simp only [Function.update_same, Function.update_noteq, ne_eq, reduceCtorEq,
        not_false_eq_true, events_append]
      all_goals first
        | assumption
        | omega
        | rfl
        | simp [eA, updateEvents, hl', hd]
  · have hwr : sys.st.m.writer = true := hw.mpr (Or.inl (Or.inl rfl))
    have hlast : sys.lastLock = some Who.A := by
      rcases hq : sys.lastLock with _ | q
      · exact absurd (lN.mp hq).1 (by omega)
      · cases q
        · rfl
        · exact absurd (lB hq).2 (by omega)
        · exact absurd hq lC
    rw [step_assign Who.A _ _ _ _ pA]
    simp only
    constructor
    all_goals try simp only [Function.update_same, Function.update_noteq, ne_eq, reduceCtorEq,
      not_false_eq_true, events_append]
    all_goals first
      | assumption
      | omega
      | rfl
      | (simp [eA, updateEvents, hlast] ; done)
      | (simpa using hw)
      | (rw [hd]; simp [hlast]; split <;> rfl)
  · have hwr : sys.st.m.writer = true := hw.mpr (Or.inl (Or.inr rfl))
    rw [step_Unlock_ok Who.A _ _ pA hwr]
    simp only
    constructor
    all_goals try simp only [Function.update_same, Function.update_noteq, ne_eq, reduceCtorEq,
      not_false_eq_true, events_append]
    all_goals first
      | assumption
      | omega
      | rfl
      | (simp [eA, updateEvents] ; done)
      | (simpa using hx)
      | (simpa using lN)
      | (intro hq; have h1 := lB hq; omega)
  · rw [step_Fprint Who.A _ _ _ pA]
    simp only
    constructor
    all_goals try simp only [Function.update_same, Function.update_noteq, ne_eq, reduceCtorEq,
      not_false_eq_true, events_append]
    all_goals first
      | assumption
      | omega
      | rfl
      | (simp [eA, wA, updateEvents] ; done)
      | (simpa using hw)
      | (simpa using lN)
      | (simpa using lA)
      | (simpa using lB)
  · rw [step_ret Who.A _ pA]
    exact Or.inr ⟨rfl, rfl⟩

theorem step_B (d : GoMap) (k v1 v2 : String) (p : Params) (i j l : Nat) (m : GoMap)
    (sys : Sys) (h : Inv d k v1 v2 p i j l m sys) :
    match Sys.step Who.B sys with
    | .ok sys' => Inv d k v1 v2 p i (j + 1) l m sys'
    | .error e =>
        (e = Halt.waits ∧ j = 0 ∧ ((i = 1 ∨ i = 2) ∨ (1 ≤ l ∧ l ≤ 3))) ∨
        (e = Halt.exited ∧ j = 4) := by
  obtain ⟨hi, hj, hl, pA, pB, pC, eA, eB, eC, wA, wB, wC, hr, hw, hx, hxr, lN, lA, lB, lC,
    hd, hs⟩ := h
  have hcases : j = 0 ∨ j = 1 ∨ j = 2 ∨ j = 3 ∨ j = 4 := by omega
  rcases hcases with rfl | rfl | rfl | rfl | rfl
  · by_cases hheld : (i = 1 ∨ i = 2) ∨ (1 ≤ l ∧ l ≤ 3)
    · have hm : sys.st.m.writer = true ∨ 0 < sys.st.m.readers := by
        rcases hheld with h1 | h1
        · exact Or.inl (hw.mpr (Or.inl h1))
        · right; rw [hr, if_pos h1]; exact Nat.one_pos
      rw [step_Lock_blocked Who.B _ _ pB hm]
      exact Or.inl ⟨rfl, rfl, hheld⟩
    · have hwr : sys.st.m.writer = false := by
        cases hb : sys.st.m.writer
        · rfl
        · exact absurd (hw.mp hb) (by omega)
      have hr0 : sys.st.m.readers = 0 := by rw [hr, if_neg (by omega)]
      have hl' : ¬ (1 ≤ l ∧ l ≤ 3) := by omega
      rw [step_Lock_ok Who.B _ _ pB (mutex_eq _ _ _ hr0 hwr)]
      simp only
      constructor
      all_goals try simp only [Function.update_same, Function.update_noteq, ne_eq, reduceCtorEq,
        not_false_eq_true, events_append]
      all_goals first
        | assumption
        | omega
        | rfl
        | simp [eB, updateEvents, hl', hd]
  · have hwr : sys.st.m.writer = true := hw.mpr (Or.inr (Or.inl rfl))
    have hlast : sys.lastLock = some Who.B := by
      rcases hq : sys.lastLock with _ | q
      · exact absurd (lN.mp hq).2 (by omega)
      · cases q
        · exact absurd (lA hq).2 (by omega)
        · rfl
        · exact absurd hq lC
    rw [step_assign Who.B _ _ _ _ pB]
    simp only
    constructor
    all_goals try simp only [Function.update_same, Function.update_noteq, ne_eq, reduceCtorEq,
      not_false_eq_true, events_append]
    all_goals first
      | assumption
      | omega
      | rfl
      | (simp [eB, updateEvents, hlast] ; done)
      | (simpa using hw)
      | (rw [hd]; simp [hlast]; split <;> rfl)
  · have hwr : sys.st.m.writer = true := hw.mpr (Or.inr (Or.inr rfl))
    rw [step_Unlock_ok Who.B _ _ pB hwr]
    simp only
    constructor
    all_goals try simp only [Function.update_same, Function.update_noteq, ne_eq, reduceCtorEq,
      not_false_eq_true, events_append]
    all_goals first
      | assumption
      | omega
      | rfl
      | (simp [eB, updateEvents] ; done)
      | (simpa using hx)
      | (simpa using lN)
      | (intro hq; have h1 := lA hq; omega)
  · rw [step_Fprint Who.B _ _ _ pB]
    simp only
    constructor
    all_goals try simp only [Function.update_same, Function.update_noteq, ne_eq, reduceCtorEq,
      not_false_eq_true, events_append]
    all_goals first
      | assumption
      | omega
      | rfl
      | (simp [eB, wB, updateEvents] ; done)
      | (simpa using hw)
      | (simpa using lN)
      | (simpa using lA)
      | (simpa using lB)
  · rw [step_ret Who.B _ pB]
    exact Or.inr ⟨rfl, rfl⟩

theorem showProg_eq (p : Params) (m : GoMap) :
    showProg p = Prog.act RLock (showFrom p m 1) := by
  unfold showProg showFrom
  split <;> rfl

theorem snapshotOf_data (d : GoMap) (k v1 v2 : String) (i j : Nat) (last : Option Who)
    (data : GoMap)
    (hd : data =
      if 2 ≤ i then
        if 2 ≤ j then
          if last = some Who.A then (d.assign k v2).assign k v1
          else (d.assign k v1).assign k v2
        else d.assign k v1
      else if 2 ≤ j then d.assign k v2 else d) :
    snapshotOf d k v1 v2 data := by
  unfold snapshotOf
  rw [hd]
  split
  · split
    · split
      · exact Or.inr (Or.inr (Or.inr (Or.inr rfl)))
      · exact Or.inr (Or.inr (Or.inr (Or.inl rfl)))
    · exact Or.inr (Or.inl rfl)
  · split
    · exact Or.inr (Or.inr (Or.inl rfl))
    · exact Or.inl rfl

theorem step_C (d : GoMap) (k v1 v2 : String) (p : Params) (i j l : Nat) (m : GoMap)
    (sys : Sys) (h : Inv d k v1 v2 p i j l m sys) :
    match Sys.step Who.C sys with
    | .ok sys' => ∃ m', Inv d k v1 v2 p i j (l + 1) m' sys'
    | .error e =>
        (e = Halt.waits ∧ l = 0 ∧ ((i = 1 ∨ i = 2) ∨ (j = 1 ∨ j = 2))) ∨
        (e = Halt.exited ∧ l = 4) := by
  obtain ⟨hi, hj, hl, pA, pB, pC, eA, eB, eC, wA, wB, wC, hr, hw, hx, hxr, lN, lA, lB, lC,
    hd, hs⟩ := h
  have hcases : l = 0 ∨ l = 1 ∨ l = 2 ∨ l = 3 ∨ l = 4 := by omega
  rcases hcases with rfl | rfl | rfl | rfl | rfl
  · have pC' : (sys.g Who.C).prog = Prog.act RLock (showFrom p m 1) := by
      rw [pC]
      exact showProg_eq p m
    by_cases hheld : (i = 1 ∨ i = 2) ∨ (j = 1 ∨ j = 2)
    · rw [step_RLock_blocked Who.C _ _ pC' (hw.mpr hheld)]
      exact Or.inl ⟨rfl, rfl, hheld⟩
    · have hwr : sys.st.m.writer = false := by
        cases hb : sys.st.m.writer
        · rfl
        · exact absurd (hw.mp hb) hheld
      have hr0 : sys.st.m.readers = 0 := by rw [hr]; rfl
      rw [step_RLock_ok Who.C _ _ pC' hwr]
      refine ⟨m, ?_⟩
      constructor
      all_goals try simp only [Function.update_same, Function.update_noteq, ne_eq, reduceCtorEq,
        not_false_eq_true, events_append]
      all_goals first
        | assumption
        | omega
        | rfl
        | (simp [eC, wC, showEvents, hr0] ; done)
        | (simpa using hheld)
  · have hkm : sys.st.m.readers = 1 := by rw [hr]; rfl
    by_cases hkey : p.ByName "key" = ""
    · have pC' : (sys.g Who.C).prog = Prog.ld fun d =>
          Prog.act (Fprint ("Read list: " ++ fmtMap d)) (Prog.act RUnlock Prog.ret) := by
        rw [pC]
        simp [showFrom, hkey]
      rw [step_ld Who.C _ _ pC']
      refine ⟨sys.st.data, ?_⟩
      constructor
      all_goals try simp only [Function.update_same, Function.update_noteq, ne_eq, reduceCtorEq,
        not_false_eq_true, events_append]
      all_goals first
        | assumption
        | omega
        | rfl
        | (simp [eC, wC, showEvents, showFrom, showText, hkey] ; done)
        | (intro _; exact snapshotOf_data d k v1 v2 i j _ _ hd)
    · have pC' : (sys.g Who.C).prog = Prog.idx (p.ByName "key") fun v =>
          Prog.act (Fprint ("Read entry: s.data[" ++ p.ByName "key" ++ "] = " ++ v))
            (Prog.act RUnlock Prog.ret) := by
        rw [pC]
        simp [showFrom, hkey]
      rw [step_idx Who.C _ _ _ pC']
      refine ⟨sys.st.data, ?_⟩
      constructor
      all_goals try simp only [Function.update_same, Function.update_noteq, ne_eq, reduceCtorEq,
        not_false_eq_true, events_append]
      all_goals first
        | assumption
        | omega
        | rfl
        | (simp [eC, wC, showEvents, showFrom, showText, hkey] ; done)
        | (intro _; exact snapshotOf_data d k v1 v2 i j _ _ hd)
  · rw [step_Fprint Who.C _ _ _ pC]
    refine ⟨m, ?_⟩
    constructor
    all_goals try simp only [Function.update_same, Function.update_noteq, ne_eq, reduceCtorEq,
      not_false_eq_true, events_append]
    all_goals first
      | assumption
      | omega
      | rfl
      | (simp [eC, wC, showEvents] ; done)
      | (intro _; exact hs (by omega))
  · have hr1 : sys.st.m.readers = 1 := by rw [hr]; rfl
    have hwr : sys.st.m.writer = false := by
      cases hb : sys.st.m.writer
      · rfl
      · exact absurd (by omega) (hxr (hw.mp hb))
    rw [step_RUnlock_ok Who.C _ _ pC (by omega)]
    refine ⟨m, ?_⟩
    constructor
    all_goals try simp only [Function.update_same, Function.update_noteq, ne_eq, reduceCtorEq,
      not_false_eq_true, events_append]
    all_goals first
      | assumption
      | omega
      | rfl
      | (simp [eC, wC, showEvents, hr1] ; done)
      | (intro _; exact hs (by omega))
  · rw [step_ret Who.C _ pC]
    exact Or.inr ⟨rfl, rfl⟩

theorem Inv_init (d : GoMap) (k v1 v2 : String) (p : Params) :
    Inv d k v1 v2 p 0 0 0 d (Sys.init ⟨d, RWMutex.unlocked⟩ k v1 v2 p) := by
  constructor
  all_goals first
    | omega
    | rfl
    | (simp [Sys.init, Goroutine.start, updateProg, updateFrom, updateText,
        ByName_key_entryValueParams, ByName_value_entryValueParams, RWMutex.unlocked])

theorem run_inv (d : GoMap) (k v1 v2 : String) (p : Params) (sched : List Who) :
    ∀ (i j l : Nat) (m : GoMap) (sys : Sys), Inv d k v1 v2 p i j l m sys →
      match Sys.run sched sys with
      | .ok sys' => ∃ i' j' l' m', Inv d k v1 v2 p i' j' l' m' sys'
      | .error e => e = Halt.waits ∨ e = Halt.exited := by
  induction sched with
  | nil =>
    intro i j l m sys h
    exact ⟨i, j, l, m, h⟩
  | cons w rest ih =>
    intro i j l m sys h
    simp only [Sys.run]
    cases w with
    | A =>
      have hs := step_A d k v1 v2 p i j l m sys h
      rcases hstep : Sys.step Who.A sys with e | sys'
      · rw [hstep] at hs
        rcases hs with hs | hs
        · exact Or.inl hs.1
        · exact Or.inr hs.1
      · rw [hstep] at hs
        exact ih _ _ _ _ sys' hs
    | B =>
      have hs := step_B d k v1 v2 p i j l m sys h
      rcases hstep : Sys.step Who.B sys with e | sys'
      · rw [hstep] at hs
        rcases hs with hs | hs
        · exact Or.inl hs.1
        · exact Or.inr hs.1
      · rw [hstep] at hs
        exact ih _ _ _ _ sys' hs
    | C =>
      have hs := step_C d k v1 v2 p i j l m sys h
      rcases hstep : Sys.step Who.C sys with e | sys'
      · rw [hstep] at hs
        rcases hs with hs | hs
        · exact Or.inl hs.1
        · exact Or.inr hs.1
      · rw [hstep] at hs
        obtain ⟨m', hm'⟩ := hs
        exact ih _ _ _ _ sys' hm'

theorem update_inWrite (g : Goroutine) (k v : String) (i : Nat) (hi : i ≤ 4)
    (he : events g.log = (updateEvents k v).take i) : g.inWrite ↔ (i = 1 ∨ i = 2) := by
  unfold Goroutine.inWrite occurrences
  have he' : g.log.map Step.ev = (updateEvents k v).take i := he
  rw [he']
  have hcases : i = 0 ∨ i = 1 ∨ i = 2 ∨ i = 3 ∨ i = 4 := by omega
  rcases hcases with rfl | rfl | rfl | rfl | rfl <;> simp [updateEvents, List.count_cons]

theorem show_inRead (g : Goroutine) (p : Params) (m : GoMap) (l : Nat) (hl : l ≤ 4)
    (he : events g.log = (showEvents p m).take l) : g.inRead ↔ (1 ≤ l ∧ l ≤ 3) := by
  unfold Goroutine.inRead occurrences
  have he' : g.log.map Step.ev = (showEvents p m).take l := he
  rw [he']
  have hcases : l = 0 ∨ l = 1 ∨ l = 2 ∨ l = 3 ∨ l = 4 := by omega
  by_cases hkey : p.ByName "key" = ""
  · rcases hcases with rfl | rfl | rfl | rfl | rfl <;> simp [showEvents, List.count_cons, hkey]
  · rcases hcases with rfl | rfl | rfl | rfl | rfl <;> simp [showEvents, List.count_cons, hkey]

theorem update_done (g : Goroutine) (k v : String) (i : Nat) (hi : i ≤ 4)
    (hp : g.prog = updateFrom k v i) : g.done ↔ i = 4 := by
  unfold Goroutine.done
  rw [hp]
  have hcases : i = 0 ∨ i = 1 ∨ i = 2 ∨ i = 3 ∨ i = 4 := by omega
  rcases hcases with rfl | rfl | rfl | rfl | rfl <;> simp [updateFrom, Prog.isRet]

theorem show_done (g : Goroutine) (p : Params) (m : GoMap) (l : Nat) (hl : l ≤ 4)
    (hp : g.prog = showFrom p m l) : g.done ↔ l = 4 := by
  unfold Goroutine.done
  rw [hp]
  have hcases : l = 0 ∨ l = 1 ∨ l = 2 ∨ l = 3 ∨ l = 4 := by omega
  by_cases hkey : p.ByName "key" = ""
  · rcases hcases with rfl | rfl | rfl | rfl | rfl <;>
      simp [showFrom, showProg, Prog.isRet, hkey]
  · rcases hcases with rfl | rfl | rfl | rfl | rfl <;>
      simp [showFrom, showProg, Prog.isRet, hkey]

theorem serve_show_text (p : Params) (m : GoMap) :
    ∃ σ : World, serve «show» p ⟨m, RWMutex.unlocked⟩ = .ok σ ∧ σ.w = showText p m := by
  by_cases h : p.ByName "key" = ""
  · exact ⟨_, serve_show_list p m h, by simp [showText, h]⟩
  · exact ⟨_, serve_show_entry p m h, by simp [showText, h]⟩

theorem Entries.find_of_mem (es : Entries) (k v : String) (hn : (Entries.keyList es).Nodup)
    (h : (k, v) ∈ es) : Entries.find es k = some v := by
  induction es with
  | nil => simp at h
  | cons e rest ih =>
    obtain ⟨k', v'⟩ := e
    have hn' : k' ∉ Entries.keyList rest ∧ (Entries.keyList rest).Nodup := by
      simpa [Entries.keyList] using hn
    rcases List.mem_cons.mp h with h1 | h1
    · have hk : k' = k := (congrArg Prod.fst h1).symm
      have hv : v' = v := (congrArg Prod.snd h1).symm
      simp [Entries.find, hk, hv]
    · have hmem : k ∈ Entries.keyList rest := List.mem_map_of_mem Prod.fst h1
      have hne : ¬ k' = k := fun hk => hn'.1 (hk ▸ hmem)
      simp [Entries.find, hne, ih hn'.2 h1]

theorem Entries.find_none_of_absent (es : Entries) (k : String) (h : ∀ v, (k, v) ∉ es) :
    Entries.find es k = none := by
  cases hf : Entries.find es k with
  | none => rfl
  | some v => exact absurd (Entries.mem_of_find es k v hf) (h v)

theorem Entries.absent_of_find_none (es : Entries) (k : String) (h : Entries.find es k = none) :
    ∀ v, (k, v) ∉ es := by
  intro v hv
  have hk : k ∈ Entries.keyList es := List.mem_map_of_mem Prod.fst hv
  have := (Entries.find_isSome es k).mpr hk
  rw [h] at this
  simp at this

theorem snapshot_index (d : GoMap) (k v1 v2 : String) (m : GoMap)
    (hm : snapshotOf d k v1 v2 m) :
    m.index k = v1 ∨ m.index k = v2 ∨ (k, m.index k) ∈ d.entries ∨
      (m.index k = "" ∧ ∀ v, (k, v) ∉ d.entries) := by
  rcases hm with h | h | h | h | h
  · rw [h]
    cases hf : d.find k with
    | none =>
      right; right; right
      exact ⟨by simp [GoMap.index, hf], Entries.absent_of_find_none d.entries k hf⟩
    | some x =>
      right; right; left
      have hx : d.index k = x := by simp [GoMap.index, hf]
      rw [hx]
      exact Entries.mem_of_find d.entries k x hf
  · left; rw [h]; simp [GoMap.index, GoMap.find_assign_same]
  · right; left; rw [h]; simp [GoMap.index, GoMap.find_assign_same]
  · right; left; rw [h]; simp [GoMap.index, GoMap.find_assign_same]
  · left; rw [h]; simp [GoMap.index, GoMap.find_assign_same]

theorem Inv_progress (d : GoMap) (k v1 v2 : String) (p : Params) (i j l : Nat) (m : GoMap)
    (sys : Sys) (h : Inv d k v1 v2 p i j l m sys) :
    (i = 4 ∧ j = 4 ∧ l = 4) ∨ ∃ w sys', Sys.step w sys = .ok sys' := by
  have hA := step_A d k v1 v2 p i j l m sys h
  have hB := step_B d k v1 v2 p i j l m sys h
  have hC := step_C d k v1 v2 p i j l m sys h
  have hi := h.hi
  have hj := h.hj
  have hl := h.hl
  have hx := h.excl
  have hxr := h.exclR
  by_cases hdone : i = 4 ∧ j = 4 ∧ l = 4
  · exact Or.inl hdone
  · right
    rcases hstepA : Sys.step Who.A sys with eA | sA
    · rw [hstepA] at hA
      rcases hstepB : Sys.step Who.B sys with eB | sB
      · rw [hstepB] at hB
        rcases hstepC : Sys.step Who.C sys with eC | sC
        · rw [hstepC] at hC
          exfalso
          omega
        · exact ⟨Who.C, sC, hstepC⟩
      · exact ⟨Who.B, sB, hstepB⟩
    · exact ⟨Who.A, sA, hstepA⟩

theorem Inv_facts (d : GoMap) (k v1 v2 : String) (p : Params) (i j l : Nat) (m : GoMap)
    (sys : Sys) (h : Inv d k v1 v2 p i j l m sys) :
    ¬ ((sys.g Who.A).inWrite ∧ (sys.g Who.B).inWrite) ∧
    ((sys.g Who.A).inWrite ∨ (sys.g Who.B).inWrite → ¬ (sys.g Who.C).inRead) ∧
    ((sys.g Who.A).done → (sys.g Who.B).done →
      (sys.lastLock = some Who.A ∧ (k, v1) ∈ sys.st.data.entries ∧ sys.st.data.index k = v1) ∨
      (sys.lastLock = some Who.B ∧ (k, v2) ∈ sys.st.data.entries ∧
        sys.st.data.index k = v2)) ∧
    ((sys.g Who.C).w = "" ∨
      ∃ (mp : GoMap) (σ : World), snapshotOf d k v1 v2 mp ∧
        serve «show» p ⟨mp, RWMutex.unlocked⟩ = .ok σ ∧ (sys.g Who.C).w = σ.w) ∧
    (p.ByName "key" = k → k ≠ "" →
      (sys.g Who.C).w = "" ∨
      ∃ x, (sys.g Who.C).w = "Read entry: s.data[" ++ k ++ "] = " ++ x ∧
        (x = v1 ∨ x = v2 ∨ (k, x) ∈ d.entries ∨ (x = "" ∧ ∀ v, (k, v) ∉ d.entries))) ∧
    (((sys.g Who.A).done ∧ (sys.g Who.B).done ∧ (sys.g Who.C).done) ∨
      ∃ w sys', Sys.step w sys = .ok sys') := by
  have hwA := update_inWrite (sys.g Who.A) k v1 i h.hi h.evA
  have hwB := update_inWrite (sys.g Who.B) k v2 j h.hj h.evB
  have hrC := show_inRead (sys.g Who.C) p m l h.hl h.evC
  have hdA := update_done (sys.g Who.A) k v1 i h.hi h.progA
  have hdB := update_done (sys.g Who.B) k v2 j h.hj h.progB
  have hdC := show_done (sys.g Who.C) p m l h.hl h.progC
  refine ⟨?_, ?_, ?_, ?_, ?_, ?_⟩
  · rw [hwA, hwB]
    exact h.excl
  · rw [hwA, hwB, hrC]
    exact h.exclR
  · intro ha hb
    have hi4 : i = 4 := hdA.mp ha
    have hj4 : j = 4 := hdB.mp hb
    have hd := h.data
    rw [if_pos (by omega), if_pos (by omega)] at hd
    have lN := h.lastNone
    have lC := h.lastC
    rcases hq : sys.lastLock with _ | q
    · exact absurd (lN.mp hq).1 (by omega)
    · cases q
      · left
        rw [hq, if_pos rfl] at hd
        have hf : sys.st.data.find k = some v1 := by rw [hd]; exact GoMap.find_assign_same _ k v1
        exact ⟨rfl, Entries.mem_of_find _ k v1 hf, by simp [GoMap.index, hf]⟩
      · right
        rw [hq, if_neg (by simp)] at hd
        have hf : sys.st.data.find k = some v2 := by rw [hd]; exact GoMap.find_assign_same _ k v2
        exact ⟨rfl, Entries.mem_of_find _ k v2 hf, by simp [GoMap.index, hf]⟩
      · exact absurd hq lC
  · have hwC := h.wC
    by_cases h3 : 3 ≤ l
    · right
      rw [if_pos h3] at hwC
      obtain ⟨σ, hσ, hw⟩ := serve_show_text p m
      exact ⟨m, σ, h.snap (by omega), hσ, by rw [hwC, hw]⟩
    · left
      rw [if_neg h3] at hwC
      exact hwC
  · intro hkey hk
    have hwC := h.wC
    by_cases h3 : 3 ≤ l
    · right
      rw [if_pos h3] at hwC
      refine ⟨m.index k, ?_, snapshot_index d k v1 v2 m (h.snap (by omega))⟩
      rw [hwC]
      subst hkey
      simp [showText, hk]
    · left
      rw [if_neg h3] at hwC
      exact hwC
  · rcases Inv_progress d k v1 v2 p i j l m sys h with hdone | hstep
    · exact Or.inl ⟨hdA.mpr hdone.1, hdB.mpr hdone.2.1, hdC.mpr hdone.2.2⟩
    · exact Or.inr hstep

theorem bind_ok_same (x : Except Fault World) : x.bind Except.ok = x := by
  cases x <;> rfl

/-- The body of `show` cut into operations, run without interruption, is the handler. -/
theorem showProg_run (p : Params) : (showProg p).run = «show» p := by
  funext σ
  unfold showProg «show»
  by_cases h : p.ByName "key" = "" <;>
    simp only [h, if_true, if_false, Prog.run, bind, bind_ok_same]

/-- The body of `update` cut into operations, run without interruption, is the handler. -/
theorem updateProg_run (p : Params) : (updateProg p).run = update p := by
  funext σ
  simp only [updateProg, update, Prog.run, bind, bind_ok_same]
  rfl

/-! ## The properties of the specification -/

/-- C1, round trip with overwrite: on every store, for every key `k` and all values `v1`,
`v2`, the request `update(k, v1)` succeeds and the lookup `s.data[k]` that `show` performs
on the resulting store yields `v1`; a further `update(k, v2)` succeeds and the same lookup
yields `v2`. -/
theorem update_round_trip (d : GoMap) (k v1 v2 : String) :
    ∃ σ1 σ2 : World,
      serve update (entryValueParams k v1) ⟨d, RWMutex.unlocked⟩ = .ok σ1 ∧
      (indexData k (World.enter σ1.s)).1 = v1 ∧
      serve update (entryValueParams k v2) σ1.s = .ok σ2 ∧
      (indexData k (World.enter σ2.s)).1 = v2 := by
  refine ⟨_, _, serve_update_kv d k v1, ?_, serve_update_kv (d.assign k v1) k v2, ?_⟩
  · simp [indexData, World.enter, GoMap.index, GoMap.find_assign_same]
  · simp [indexData, World.enter, GoMap.index, GoMap.find_assign_same]

/-- C2, snapshot completeness: every finite sequence of `update` requests served in order
on the initial store `s` succeeds, and the map that the list branch of `show` then renders
holds, for every key, the value of the last put of that key and nothing for a key that is
never put; its keys are exactly the keys of the sequence. -/
theorem snapshot_complete (ops : List (String × String)) :
    ∃ (st : store) (σ : World),
      serveUpdates ops s = .ok st ∧
      serve «show» noParams st = .ok σ ∧
      σ.w = "Read list: " ++ fmtMap st.data ∧
      (∀ k, st.data.find k = lastPut ops k) ∧
      (∀ k, k ∈ st.data.keys ↔ k ∈ ops.map Prod.fst) := by
  have hfind : ∀ k, (ops.foldl (fun m e => m.assign e.1 e.2) GoMap.empty).find k =
      lastPut ops k := by
    intro k
    rw [find_foldl_assign]
    cases lastPut ops k <;> rfl
  refine ⟨_, _, serveUpdates_eq ops GoMap.empty, serve_show_list noParams _ rfl, rfl, hfind, ?_⟩
  intro k
  rw [GoMap.mem_keys_iff, hfind, lastPut_isSome]

/-- C3, reading one entry: on every store and for every non-empty key `k`, `show` succeeds
and writes exactly `Read entry: s.data[k] = v`, where `v` is the value of the entry the
store holds for `k`, or the empty string when the store holds no entry for `k`; so a key
without entry is rendered exactly as a key whose stored value is the empty string. -/
theorem show_entry_text (d : GoMap) (k : String) (hk : k ≠ "") :
    ∃ σ : World,
      serve «show» (entryParams k) ⟨d, RWMutex.unlocked⟩ = .ok σ ∧
      (∀ v, (k, v) ∈ d.entries → σ.w = "Read entry: s.data[" ++ k ++ "] = " ++ v) ∧
      ((∀ v, (k, v) ∉ d.entries) → σ.w = "Read entry: s.data[" ++ k ++ "] = ") ∧
      ((k, "") ∈ d.entries → σ.w = "Read entry: s.data[" ++ k ++ "] = ") := by
  have hp : (entryParams k).ByName "key" ≠ "" := by
    rw [ByName_key_entryParams]
    exact hk
  have hmem : ∀ v, (k, v) ∈ d.entries →
      "Read entry: s.data[" ++ (entryParams k).ByName "key" ++ "] = " ++
          d.index ((entryParams k).ByName "key") =
        "Read entry: s.data[" ++ k ++ "] = " ++ v := by
    intro v hv
    have hf : d.find k = some v := Entries.find_of_mem d.entries k v d.nodup hv
    simp [ByName_key_entryParams, GoMap.index, hf]
  refine ⟨_, serve_show_entry (entryParams k) d hp, hmem, ?_, ?_⟩
  · intro habs
    have hf : d.find k = none := Entries.find_none_of_absent d.entries k habs
    simp [ByName_key_entryParams, GoMap.index, hf]
  · intro hv
    simpa using hmem "" hv

/-- A run of C3: reading the key `color` on a store that holds `blue` for it, next to an
entry with an empty value. -/
theorem show_entry_text_witness :
    "color" ≠ "" ∧
    ∃ σ : World,
      serve «show» (entryParams "color")
          ⟨(GoMap.empty.assign "color" "blue").assign "shade" "", RWMutex.unlocked⟩ = .ok σ ∧
      (∀ v, ("color", v) ∈ ((GoMap.empty.assign "color" "blue").assign "shade" "").entries →
        σ.w = "Read entry: s.data[" ++ "color" ++ "] = " ++ v) ∧
      ((∀ v, ("color", v) ∉ ((GoMap.empty.assign "color" "blue").assign "shade" "").entries) →
        σ.w = "Read entry: s.data[" ++ "color" ++ "] = ") ∧
      (("color", "") ∈ ((GoMap.empty.assign "color" "blue").assign "shade" "").entries →
        σ.w = "Read entry: s.data[" ++ "color" ++ "] = ") :=
  ⟨by decide, show_entry_text ((GoMap.empty.assign "color" "blue").assign "shade" "") "color"
    (by decide)⟩

/-- C4, listing: on every store, `show` called with an empty or missing key parameter
succeeds, performs no single-key lookup, and writes exactly `Read list: ` followed by the
rendering of the whole map; the rendered items are the entries of the store, each once, so
every entry appears in the text; and the text never has the `Read entry` form. -/
theorem show_list_text (d : GoMap) (p : Params) (hp : p.ByName "key" = "") :
    ∃ σ : World,
      serve «show» p ⟨d, RWMutex.unlocked⟩ = .ok σ ∧
      σ.w = "Read list: " ++ fmtMap d ∧
      (∀ st ∈ σ.log, ∀ k, st.ev ≠ Event.index k) ∧
      (fmtItems d).Perm (d.entries.map fmtEntry) ∧
      (∀ k v, d.find k = some v →
        ∃ before after : String,
          σ.w = "Read list: map[" ++ before ++ (k ++ ":" ++ v) ++ after ++ "]") ∧
      (∀ k v, σ.w ≠ "Read entry: s.data[" ++ k ++ "] = " ++ v) := by
  refine ⟨_, serve_show_list p d hp, rfl, ?_, fmtItems_perm d, ?_, ?_⟩
  · intro st hst k
    simp only [List.mem_cons, List.mem_singleton, List.not_mem_nil, or_false] at hst
    rcases hst with h | h | h | h <;> simp [h]
  · intro k v h
    obtain ⟨before, after, hm⟩ := fmtMap_shows d k v h
    have hlit : "Read list: " ++ "map[" = "Read list: map[" := by decide
    refine ⟨before, after, ?_⟩
    show "Read list: " ++ fmtMap d = _
    rw [hm, ← hlit]
    simp only [String.append_assoc]
  · intro k v
    simpa [String.append_assoc] using list_ne_entry (fmtMap d) (k ++ "] = " ++ v)

/-- A run of C4: the route `/list`, which binds no key, on a store that holds a value
under the empty key. -/
theorem show_list_text_witness :
    noParams.ByName "key" = "" ∧
    ∃ σ : World,
      serve «show» noParams ⟨GoMap.empty.assign "" "x", RWMutex.unlocked⟩ = .ok σ ∧
      σ.w = "Read list: " ++ fmtMap (GoMap.empty.assign "" "x") ∧
      (∀ st ∈ σ.log, ∀ k, st.ev ≠ Event.index k) ∧
      (fmtItems (GoMap.empty.assign "" "x")).Perm
        ((GoMap.empty.assign "" "x").entries.map fmtEntry) ∧
      (∀ k v, (GoMap.empty.assign "" "x").find k = some v →
        ∃ before after : String,
          σ.w = "Read list: map[" ++ before ++ (k ++ ":" ++ v) ++ after ++ "]") ∧
      (∀ k v, σ.w ≠ "Read entry: s.data[" ++ k ++ "] = " ++ v) :=
  ⟨rfl, show_list_text (GoMap.empty.assign "" "x") noParams rfl⟩

/-- C5, update: on every store and for all strings `k`, `v`, `update(k, v)` succeeds, writes
exactly `Updated: s.data[k] = v`, and in the resulting store `k` maps to `v`. -/
theorem update_echo (d : GoMap) (k v : String) :
    ∃ σ : World,
      serve update (entryValueParams k v) ⟨d, RWMutex.unlocked⟩ = .ok σ ∧
      σ.w = "Updated: s.data[" ++ k ++ "] = " ++ v ∧
      σ.s.data.find k = some v ∧
      σ.s.data.index k = v := by
  refine ⟨_, serve_update_kv d k v, rfl, GoMap.find_assign_same d k v, ?_⟩
  simp [GoMap.index, GoMap.find_assign_same]

/-- The handler `show` on any parameters: it succeeds and gives the store back as it was. -/
theorem serve_show_store (p : Params) (d : GoMap) :
    ∃ σ : World, serve «show» p ⟨d, RWMutex.unlocked⟩ = .ok σ ∧ σ.s = ⟨d, RWMutex.unlocked⟩ := by
  by_cases h : p.ByName "key" = ""
  · exact ⟨_, serve_show_list p d h, rfl⟩
  · exact ⟨_, serve_show_entry p d h, rfl⟩

/-- C6, no operation removes an entry: on every store and for every handler call (`show`,
`update` and `Index`, on any parameters) the call succeeds and every key present before it
is present after it; the number of entries is unchanged by `show` and `Index`, and `update`
leaves it unchanged when its key is present and raises it by exactly one when it is not, so
it never decreases. -/
theorem no_entry_removed (d : GoMap) (p : Params) :
    (∃ σ : World, serve «show» p ⟨d, RWMutex.unlocked⟩ = .ok σ ∧
      (∀ k ∈ d.keys, k ∈ σ.s.data.keys) ∧ σ.s.data.len = d.len) ∧
    (∃ σ : World, serve update p ⟨d, RWMutex.unlocked⟩ = .ok σ ∧
      (∀ k ∈ d.keys, k ∈ σ.s.data.keys) ∧
      σ.s.data.len = (if p.ByName "key" ∈ d.keys then d.len else d.len + 1) ∧
      d.len ≤ σ.s.data.len) ∧
    (∃ σ : World, serve Index p ⟨d, RWMutex.unlocked⟩ = .ok σ ∧
      (∀ k ∈ d.keys, k ∈ σ.s.data.keys) ∧ σ.s.data.len = d.len) := by
  refine ⟨?_, ?_, ?_⟩
  · obtain ⟨σ, hσ, hs⟩ := serve_show_store p d
    refine ⟨σ, hσ, ?_, ?_⟩
    · intro k hk
      rw [hs]
      exact hk
    · rw [hs]
  · refine ⟨_, serve_update p d, ?_, GoMap.len_assign d _ _, ?_⟩
    · intro k hk
      exact GoMap.mem_keys_assign d _ _ k hk
    · show d.len ≤ (d.assign (p.ByName "key") (p.ByName "value")).len
      rw [GoMap.len_assign]
      split
      · exact Nat.le_refl _
      · exact Nat.le_succ _
  · exact ⟨_, serve_Index p _, fun k hk => hk, rfl⟩

/-- C7, frame: on every store and any parameters, `show` (in both branches, also for a key
without entry) and `Index` succeed and leave the map exactly as it was, and `update`
succeeds and changes the lookup of no key other than its own. -/
theorem reads_keep_store (d : GoMap) (p : Params) :
    (∃ σ : World, serve «show» p ⟨d, RWMutex.unlocked⟩ = .ok σ ∧ σ.s.data = d) ∧
    (∃ σ : World, serve Index p ⟨d, RWMutex.unlocked⟩ = .ok σ ∧ σ.s.data = d) ∧
    (∃ σ : World, serve update p ⟨d, RWMutex.unlocked⟩ = .ok σ ∧
      ∀ k0, k0 ≠ p.ByName "key" → σ.s.data.find k0 = d.find k0) := by
  refine ⟨?_, ⟨_, serve_Index p _, rfl⟩, ⟨_, serve_update p d, ?_⟩⟩
  · obtain ⟨σ, hσ, hs⟩ := serve_show_store p d
    exact ⟨σ, hσ, by rw [hs]⟩
  · intro k0 hne
    exact GoMap.find_assign_other d _ _ k0 hne

/-- C8 as stated fails for `show`: serving `GET /entry/a` on the initial store, the one
write to the response writer takes place between `RLock` and `RUnlock`, while the read lock
is held. -/
theorem show_writes_under_lock :
    ∃ σ : World,
      serve «show» (entryParams "a") s = .ok σ ∧
      events σ.log =
        [Event.RLock, Event.index "a", Event.respWrite "Read entry: s.data[a] = ",
         Event.RUnlock] ∧
      ¬ respondsUnlocked σ.log := by
  refine ⟨_, serve_show_entry (entryParams "a") GoMap.empty (by decide), by decide, ?_⟩
  intro h
  have h1 := h ⟨Event.respWrite
    ("Read entry: s.data[" ++ (entryParams "a").ByName "key" ++ "] = " ++
      GoMap.empty.index ((entryParams "a").ByName "key")), ⟨1, false⟩⟩ (by simp) rfl
  simp [RWMutex.unlocked] at h1

/-- C8 amended, lock scope: on every store and any parameters, `update` succeeds with the
effects `Lock`, the map assignment, `Unlock`, the response write in this order, so that only
the assignment lies between lock and unlock and the response is written with no lock held;
`show` succeeds with the effects `RLock`, the map read (the whole map when the key is
empty, the lookup of the key otherwise), the response write, `RUnlock` in this order, the
response being written while exactly its read lock is held. -/
theorem lock_scope (d : GoMap) (p : Params) :
    (∃ σ : World, serve update p ⟨d, RWMutex.unlocked⟩ = .ok σ ∧
      events σ.log =
        [Event.Lock, Event.assign (p.ByName "key") (p.ByName "value"), Event.Unlock,
         Event.respWrite σ.w] ∧
      respondsUnlocked σ.log) ∧
    (∃ σ : World, serve «show» p ⟨d, RWMutex.unlocked⟩ = .ok σ ∧
      events σ.log =
        [Event.RLock, if p.ByName "key" = "" then Event.load else Event.index (p.ByName "key"),
         Event.respWrite σ.w, Event.RUnlock] ∧
      ∀ st ∈ σ.log, st.isRespWrite = true → st.m = ⟨1, false⟩) := by
  refine ⟨⟨_, serve_update p d, rfl, ?_⟩, ?_⟩
  · intro st hst hw
    simp only [List.mem_cons, List.mem_singleton, List.not_mem_nil, or_false] at hst
    rcases hst with h | h | h | h <;> subst h <;> first | rfl | simp [Step.isRespWrite] at hw
  · by_cases h : p.ByName "key" = ""
    · refine ⟨_, serve_show_list p d h, by simp [events, h], ?_⟩
      intro st hst hw
      simp only [List.mem_cons, List.mem_singleton, List.not_mem_nil, or_false] at hst
      rcases hst with h | h | h | h <;> subst h <;> first | rfl | simp [Step.isRespWrite] at hw
    · refine ⟨_, serve_show_entry p d h, by simp [events, h], ?_⟩
      intro st hst hw
      simp only [List.mem_cons, List.mem_singleton, List.not_mem_nil, or_false] at hst
      rcases hst with h | h | h | h <;> subst h <;> first | rfl | simp [Step.isRespWrite] at hw

/-- C9, mutual exclusion of writers: on every store and for every key `k`, values `v1`, `v2`
and parameters `p`, let goroutine `A` serve `update(k, v1)`, goroutine `B` serve
`update(k, v2)` and goroutine `C` serve `show` on `p`, interleaved by any schedule.  A
schedule fails only by asking a goroutine to run that waits for the mutex or has returned;
the program never stops with a fatal error.  In every state a schedule reaches: `A` and `B`
never hold the write lock together, and `C` holds no read lock while one of them holds the
write lock; once `A` and `B` have returned, the value stored under `k` is that of the call
that acquired the write lock last; what `C` has written is nothing, or what `show` writes on
the store as it was before the two calls or after one or both of their assignments, so that
for the key `k` the value it reports is `v1`, `v2`, the value stored under `k` before the
calls, or the empty value when `k` had no entry; and unless all three have returned, some
goroutine can take a step. -/
theorem writers_exclude (d : GoMap) (k v1 v2 : String) (p : Params) (sched : List Who) :
    match Sys.run sched (Sys.init ⟨d, RWMutex.unlocked⟩ k v1 v2 p) with
    | .error e => e = Halt.waits ∨ e = Halt.exited
    | .ok sys =>
        ¬ ((sys.g Who.A).inWrite ∧ (sys.g Who.B).inWrite) ∧
        ((sys.g Who.A).inWrite ∨ (sys.g Who.B).inWrite → ¬ (sys.g Who.C).inRead) ∧
        ((sys.g Who.A).done → (sys.g Who.B).done →
          (sys.lastLock = some Who.A ∧ (k, v1) ∈ sys.st.data.entries ∧
            sys.st.data.index k = v1) ∨
          (sys.lastLock = some Who.B ∧ (k, v2) ∈ sys.st.data.entries ∧
            sys.st.data.index k = v2)) ∧
        ((sys.g Who.C).w = "" ∨
          ∃ (mp : GoMap) (σ : World), snapshotOf d k v1 v2 mp ∧
            serve «show» p ⟨mp, RWMutex.unlocked⟩ = .ok σ ∧ (sys.g Who.C).w = σ.w) ∧
        (p.ByName "key" = k → k ≠ "" →
          (sys.g Who.C).w = "" ∨
          ∃ x, (sys.g Who.C).w = "Read entry: s.data[" ++ k ++ "] = " ++ x ∧
            (x = v1 ∨ x = v2 ∨ (k, x) ∈ d.entries ∨ (x = "" ∧ ∀ v, (k, v) ∉ d.entries))) ∧
        (((sys.g Who.A).done ∧ (sys.g Who.B).done ∧ (sys.g Who.C).done) ∨
          ∃ w sys', Sys.step w sys = .ok sys') := by
  have h := run_inv d k v1 v2 p sched 0 0 0 d _ (Inv_init d k v1 v2 p)
  cases hrun : Sys.run sched (Sys.init ⟨d, RWMutex.unlocked⟩ k v1 v2 p) with
  | error e =>
    rw [hrun] at h
    exact h
  | ok sys =>
    rw [hrun] at h
    obtain ⟨i, j, l, m, hinv⟩ := h
    exact Inv_facts d k v1 v2 p i j l m sys hinv

/-- A run of C9: on the initial store, `update(x, 1)` on `A`, `update(x, 2)` on `B` and
`GET /entry/x` on `C`, with `A` first, `C` reading before `B` locks, and `B` last. -/
theorem writers_exclude_witness :
    match Sys.run
        [Who.A, Who.A, Who.A, Who.C, Who.C, Who.C, Who.C, Who.B, Who.B, Who.A, Who.B, Who.B]
        (Sys.init ⟨GoMap.empty, RWMutex.unlocked⟩ "x" "1" "2" (entryParams "x")) with
    | .error e => e = Halt.waits ∨ e = Halt.exited
    | .ok sys =>
        ¬ ((sys.g Who.A).inWrite ∧ (sys.g Who.B).inWrite) ∧
        ((sys.g Who.A).inWrite ∨ (sys.g Who.B).inWrite → ¬ (sys.g Who.C).inRead) ∧
        ((sys.g Who.A).done → (sys.g Who.B).done →
          (sys.lastLock = some Who.A ∧ ("x", "1") ∈ sys.st.data.entries ∧
            sys.st.data.index "x" = "1") ∨
          (sys.lastLock = some Who.B ∧ ("x", "2") ∈ sys.st.data.entries ∧
            sys.st.data.index "x" = "2")) ∧
        ((sys.g Who.C).w = "" ∨
          ∃ (mp : GoMap) (σ : World), snapshotOf GoMap.empty "x" "1" "2" mp ∧
            serve «show» (entryParams "x") ⟨mp, RWMutex.unlocked⟩ = .ok σ ∧
            (sys.g Who.C).w = σ.w) ∧
        ((entryParams "x").ByName "key" = "x" → "x" ≠ "" →
          (sys.g Who.C).w = "" ∨
          ∃ x, (sys.g Who.C).w = "Read entry: s.data[" ++ "x" ++ "] = " ++ x ∧
            (x = "1" ∨ x = "2" ∨ ("x", x) ∈ GoMap.empty.entries ∨
              (x = "" ∧ ∀ v, ("x", v) ∉ GoMap.empty.entries))) ∧
        (((sys.g Who.A).done ∧ (sys.g Who.B).done ∧ (sys.g Who.C).done) ∨
          ∃ w sys', Sys.step w sys = .ok sys') :=
  writers_exclude GoMap.empty "x" "1" "2" (entryParams "x")
    [Who.A, Who.A, Who.A, Who.C, Who.C, Who.C, Who.C, Who.B, Who.B, Who.A, Who.B, Who.B]

/-- C10, lock balance: on every store and any parameters, on both paths of `show` and in
`update`, the handler succeeds; every read of `s.data` takes place under a read lock and
every write of it under the write lock; `show` acquires the read lock once and releases it
once and never touches the write lock, `update` acquires the write lock once and releases it
once and never touches the read lock; and the handler, entered with no lock held, returns
with no lock held. -/
theorem lock_balance (d : GoMap) (p : Params) :
    (∃ σ : World, serve «show» p ⟨d, RWMutex.unlocked⟩ = .ok σ ∧
      accessGuarded σ.log ∧
      (σ.log.filter Step.isRead).length = 1 ∧
      occurrences Event.RLock σ.log = 1 ∧ occurrences Event.RUnlock σ.log = 1 ∧
      occurrences Event.Lock σ.log = 0 ∧ occurrences Event.Unlock σ.log = 0 ∧
      σ.s.m = RWMutex.unlocked) ∧
    (∃ σ : World, serve update p ⟨d, RWMutex.unlocked⟩ = .ok σ ∧
      accessGuarded σ.log ∧
      (σ.log.filter Step.isWrite).length = 1 ∧
      occurrences Event.Lock σ.log = 1 ∧ occurrences Event.Unlock σ.log = 1 ∧
      occurrences Event.RLock σ.log = 0 ∧ occurrences Event.RUnlock σ.log = 0 ∧
      σ.s.m = RWMutex.unlocked) := by
  refine ⟨?_, ⟨_, serve_update p d, ?_, ?_⟩⟩
  · by_cases h : p.ByName "key" = ""
    · refine ⟨_, serve_show_list p d h, ?_, ?_⟩
      · intro st hst
        simp only [List.mem_cons, List.mem_singleton, List.not_mem_nil, or_false] at hst
        rcases hst with h | h | h | h <;> subst h <;> simp [Step.isRead, Step.isWrite]
      · simp [occurrences, Step.isRead, List.filter_cons]
    · refine ⟨_, serve_show_entry p d h, ?_, ?_⟩
      · intro st hst
        simp only [List.mem_cons, List.mem_singleton, List.not_mem_nil, or_false] at hst
        rcases hst with h | h | h | h <;> subst h <;> simp [Step.isRead, Step.isWrite]
      · simp [occurrences, Step.isRead, List.filter_cons]
  · intro st hst
    simp only [List.mem_cons, List.mem_singleton, List.not_mem_nil, or_false] at hst
    rcases hst with h | h | h | h <;> subst h <;> simp [Step.isRead, Step.isWrite]
  · simp [occurrences, Step.isWrite, List.filter_cons]

/-! ## The scenarios of the specification, run on the model -/

/-- Scenario A: on the initial store, `put("color", "blue")` then `get("color")`. -/
theorem scenario_A :
    ((serveUpdates [("color", "blue")] s).bind (serve «show» (entryParams "color"))).map
        (fun σ => σ.w) = .ok "Read entry: s.data[color] = blue" := by
  rfl

/-- Scenario B: `put("a", "1")`, `put("b", "2")`, then the listing. -/
theorem scenario_B :
    ((serveUpdates [("a", "1"), ("b", "2")] s).bind (serve «show» noParams)).map
        (fun σ => σ.w) = .ok "Read list: map[a:1 b:2]" := by
  rfl

/-- Scenario C: `get("missing")` on the initial store. -/
theorem scenario_C :
    (serve «show» (entryParams "missing") s).map (fun σ => σ.w) =
      .ok "Read entry: s.data[missing] = " := by
  rfl

/-- Scenario D: `put("x", "1")`, `put("x", "2")`, then `get("x")`. -/
theorem scenario_D :
    ((serveUpdates [("x", "1"), ("x", "2")] s).bind (serve «show» (entryParams "x"))).map
        (fun σ => σ.w) = .ok "Read entry: s.data[x] = 2" := by
  rfl

/-- The listing prints the entries by ascending key, whatever the order of the puts. -/
theorem listing_sorted :
    ((serveUpdates [("b", "2"), ("a", "1"), ("ab", "x"), ("b", "3")] s).bind
        (serve «show» noParams)).map (fun σ => σ.w) = .ok "Read list: map[a:1 ab:x b:3]" := by
  rfl

/-- A handler that finds the write lock taken does not proceed: `show` is blocked. -/
theorem show_blocked_by_writer :
    serve «show» noParams ⟨GoMap.empty, ⟨0, true⟩⟩ = .error Fault.blocked := by
  rfl

/-- Two concurrent puts of `x`, `A` locking first: all return, `B` acquired the lock last
and its value is stored. -/
theorem concurrent_A_then_B :
    (Sys.run [Who.A, Who.A, Who.A, Who.B, Who.A, Who.B, Who.B, Who.B]
        (Sys.init s "x" "1" "2" noParams)).toOption.map
      (fun sys => (sys.lastLock, sys.st.data.entries, sys.st.m, (sys.g Who.A).w, (sys.g Who.B).w))
      = some (some Who.B, [("x", "2")], ⟨0, false⟩, "Updated: s.data[x] = 1",
          "Updated: s.data[x] = 2") := by
  rfl

/-- Two concurrent puts of `x`, `B` locking first: `A` acquired the lock last and its value
is stored. -/
theorem concurrent_B_then_A :
    (Sys.run [Who.B, Who.B, Who.B, Who.A, Who.B, Who.A, Who.A, Who.A]
        (Sys.init s "x" "1" "2" noParams)).toOption.map
      (fun sys => (sys.lastLock, sys.st.data.entries, sys.st.m, (sys.g Who.A).w, (sys.g Who.B).w))
      = some (some Who.A, [("x", "1")], ⟨0, false⟩, "Updated: s.data[x] = 1",
          "Updated: s.data[x] = 2") := by
  rfl

/-- While `A` holds the write lock, `B` cannot lock and `C` cannot read-lock: a schedule
that asks either to run stops with a goroutine that waits. -/
theorem concurrent_waits :
    (match Sys.run [Who.A, Who.B] (Sys.init s "x" "1" "2" noParams) with
      | .error Halt.waits => true
      | _ => false) = true ∧
    (match Sys.run [Who.A, Who.A, Who.C] (Sys.init s "x" "1" "2" noParams) with
      | .error Halt.waits => true
      | _ => false) = true := by
  constructor <;> rfl

/-- A `show` that reads between the two puts reports the value of the first. -/
theorem concurrent_show_between :
    (Sys.run [Who.A, Who.A, Who.A, Who.C, Who.C, Who.C, Who.C, Who.B, Who.B, Who.A, Who.B, Who.B]
        (Sys.init s "x" "1" "2" (entryParams "x"))).toOption.map
      (fun sys => ((sys.g Who.C).w, sys.lastLock, sys.st.data.entries))
      = some ("Read entry: s.data[x] = 1", some Who.B, [("x", "2")]) := by
  rfl

end restservice
